import Mathlib

/-
Verification of the viz-raster range bookkeeping, rasterization, merging and
color-mapping components, as a shallow embedding in Lean.

The embedding follows the Python sources:
  * ConfigManager.py      (value-range tracker: get_value_range, get_min,
                           get_max, min_missing, max_missing, set_min,
                           set_max, update_ranges)
  * pdgraster/Raster.py   (grid binner: __grid_by_centroid, __calculate_stats,
                           __as_array, __get_and_check_rasters, dtype choice)
  * pdgraster/WebImage.py (to_image color mapping)
  * pdgraster/Palette.py  (get_rgba_list lookup table)

Python dictionaries are modelled as association lists (first binding wins,
exactly as repeated-key-free dicts), Python None as Option.none, exceptions
as Except, and in-place mutation as explicit state passing.
-/

set_option autoImplicit false

namespace VizRaster

namespace ConfigManager

/-- A stored `val_range`: the pair `[min, max]` where either endpoint may be
Python `None` (unset). -/
abbrev VRange (V : Type) := Option V × Option V

/-- The value of the key `val_range` inside one `z_config[z]` dictionary.
`none` models a per-z dictionary without that key (or with it set to None). -/
abbrev ZEntry (V : Type) := Option (VRange V)

/-- The fields of one entry of the configuration's `statistics` list that the
range bookkeeping reads and writes: the statistic's unique name, its general
`val_range` (absent when the key is missing), and its `z_config` dictionary
(absent when missing), an association list from z-level to the per-z
`val_range`. -/
structure StatCfg (V : Type) where
  name : String
  val_range : Option (VRange V)
  z_config : Option (List (Nat × ZEntry V))

/-- The `statistics` list of the tiling configuration. -/
abbrev Config (V : Type) := List (StatCfg V)

/-- The exceptions the range tracker can raise: the ValueError from
`get_value_range` when the statistic is not configured, and the TypeError
from subscripting a missing general range in `get_min` / `get_max`. -/
inductive CfgError where
  | statNotFound
  | noneSubscript
deriving DecidableEq

variable {V : Type}

/-- `ConfigManager.get_stat_config`: the first statistic with the given name,
or None. -/
def get_stat_config : Config V → String → Option (StatCfg V)
  | [], _ => none
  | sc :: rest, stat =>
    if sc.name == stat then some sc else get_stat_config rest stat

/-- The chained dictionary access `z_config.get(z)` followed by reading the
`val_range` key of the per-z dictionary (`none` when `z_config` is absent or
has no entry for `z`). -/
def zview (sc : StatCfg V) (z : Nat) : Option (ZEntry V) :=
  sc.z_config.bind (fun zc => List.lookup z zc)

/-- `ConfigManager.get_value_range`.  Resolution for a concrete z:
the per-z entry's `val_range` when `z_config[z]` exists, otherwise the
general `val_range` when `sub_general` is set, otherwise None.  Raises
ValueError when the statistic is not configured. -/
def get_value_range (cfg : Config V) (stat : String) (z : Option Nat)
    (sub_general : Bool) : Except CfgError (Option (VRange V)) :=
  match get_stat_config cfg stat with
  | none => .error .statNotFound
  | some sc =>
    match z with
    | none => .ok sc.val_range
    | some zv =>
      match sc.z_config with
      | none => .ok (if sub_general then sc.val_range else none)
      | some zc =>
        match List.lookup zv zc with
        | none => .ok (if sub_general then sc.val_range else none)
        | some entry => .ok entry

/-- `ConfigManager.get_min`: resolve the range, take its min endpoint; when
that endpoint is None and `sub_general` is set, subscript the general range
(a TypeError, modelled as `.noneSubscript`, when the general range is
absent). -/
def get_min (cfg : Config V) (stat : String) (z : Option Nat)
    (sub_general : Bool) : Except CfgError (Option V) :=
  match get_value_range cfg stat z sub_general with
  | .error e => .error e
  | .ok none => .ok none
  | .ok (some r) =>
    match r.1 with
    | some v => .ok (some v)
    | none =>
      if sub_general then
        match get_value_range cfg stat none false with
        | .error e => .error e
        | .ok none => .error .noneSubscript
        | .ok (some g) => .ok g.1
      else .ok none

/-- `ConfigManager.get_max`, symmetric to `get_min`. -/
def get_max (cfg : Config V) (stat : String) (z : Option Nat)
    (sub_general : Bool) : Except CfgError (Option V) :=
  match get_value_range cfg stat z sub_general with
  | .error e => .error e
  | .ok none => .ok none
  | .ok (some r) =>
    match r.2 with
    | some v => .ok (some v)
    | none =>
      if sub_general then
        match get_value_range cfg stat none false with
        | .error e => .error e
        | .ok none => .error .noneSubscript
        | .ok (some g) => .ok g.2
      else .ok none

/-- `ConfigManager.min_missing`: True when the resolved range is None or its
min endpoint is None. -/
def min_missing (cfg : Config V) (stat : String) (z : Nat)
    (sub_general : Bool) : Except CfgError Bool :=
  match get_value_range cfg stat (some z) sub_general with
  | .error e => .error e
  | .ok none => .ok true
  | .ok (some r) => .ok r.1.isNone

/-- `ConfigManager.max_missing`, symmetric to `min_missing`. -/
def max_missing (cfg : Config V) (stat : String) (z : Nat)
    (sub_general : Bool) : Except CfgError Bool :=
  match get_value_range cfg stat (some z) sub_general with
  | .error e => .error e
  | .ok none => .ok true
  | .ok (some r) => .ok r.2.isNone

/-- In-place mutation of the first statistic with the given name (Python
mutates the dict object returned by `get_stat_config`). -/
def modifyStat (cfg : Config V) (stat : String) (f : StatCfg V → StatCfg V) :
    Config V :=
  match cfg with
  | [] => []
  | sc :: rest =>
    if sc.name == stat then f sc :: rest else sc :: modifyStat rest stat f

/-- `create_value_range` (overwrite=False) followed by `value_range[0] = v`:
an absent per-z range is first created as `[None, None]`. -/
def setEntryMin (e : ZEntry V) (v : Option V) : ZEntry V :=
  match e with
  | none => some (v, none)
  | some r => some (v, r.2)

/-- `create_value_range` (overwrite=False) followed by `value_range[1] = v`. -/
def setEntryMax (e : ZEntry V) (v : Option V) : ZEntry V :=
  match e with
  | none => some (none, v)
  | some r => some (r.1, v)

/-- Dictionary assignment `z_config[z] = ...` on the association list: the
first binding for `z` is updated, a missing binding is appended. -/
def zInsert (zc : List (Nat × ZEntry V)) (z : Nat) (g : ZEntry V → ZEntry V) :
    List (Nat × ZEntry V) :=
  match zc with
  | [] => [(z, g none)]
  | (k, e) :: rest =>
    if k == z then (k, g e) :: rest else (k, e) :: zInsert rest z g

/-- The per-z part of `create_value_range` plus the endpoint update: create
`z_config` and the entry for `z` as needed, then rewrite the entry with `g`. -/
def setZ (cfg : Config V) (stat : String) (z : Nat) (g : ZEntry V → ZEntry V) :
    Config V :=
  modifyStat cfg stat (fun sc =>
    { sc with z_config := some (zInsert (sc.z_config.getD []) z g) })

/-- `ConfigManager.set_min`: create the (stat, z) range entry if absent, then
set only the min endpoint.  With `z = none` the general range is written. -/
def set_min (cfg : Config V) (v : Option V) (stat : String) (z : Option Nat) :
    Config V :=
  match z with
  | none => modifyStat cfg stat (fun sc =>
      { sc with val_range := some (v, (sc.val_range.getD (none, none)).2) })
  | some zv => setZ cfg stat zv (fun e => setEntryMin e v)

/-- `ConfigManager.set_max`, symmetric to `set_min`. -/
def set_max (cfg : Config V) (v : Option V) (stat : String) (z : Option Nat) :
    Config V :=
  match z with
  | none => modifyStat cfg stat (fun sc =>
      { sc with val_range := some ((sc.val_range.getD (none, none)).1, v) })
  | some zv => setZ cfg stat zv (fun e => setEntryMax e v)

/-- Second half of one `update_ranges` loop body: check `max_missing` on the
state left by the min update, conditionally `set_max`. -/
def updateOneMax (cfg1 : Config V) (stat : String) (z : Nat) (v : Option V) :
    Except CfgError (Config V) :=
  match max_missing cfg1 stat z true with
  | .error e => .error e
  | .ok xm => .ok (if xm then set_max cfg1 v stat (some z) else cfg1)

/-- One loop body of `ConfigManager.update_ranges`: check `min_missing` with
substitution, conditionally `set_min`, then check `max_missing` on the
updated state, conditionally `set_max`. -/
def updateOne (cfg : Config V) (stat : String) (z : Nat)
    (vr : Option V × Option V) : Except CfgError (Config V) :=
  match min_missing cfg stat z true with
  | .error e => .error e
  | .ok mm =>
    updateOneMax (if mm then set_min cfg vr.1 stat (some z) else cfg) stat z vr.2

/-- The inner loop of `update_ranges` over the z-levels of one statistic. -/
def updateStat (cfg : Config V) (stat : String)
    (zs : List (Nat × (Option V × Option V))) : Except CfgError (Config V) :=
  match zs with
  | [] => .ok cfg
  | (z, vr) :: rest =>
    match updateOne cfg stat z vr with
    | .error e => .error e
    | .ok cfg2 => updateStat cfg2 stat rest

/-- `ConfigManager.update_ranges`: for every statistic and z-level of the
discovered ranges, fill each endpoint that is missing (by the substituting
definition). -/
def update_ranges (cfg : Config V)
    (new_ranges : List (String × List (Nat × (Option V × Option V)))) :
    Except CfgError (Config V) :=
  match new_ranges with
  | [] => .ok cfg
  | (stat, zs) :: rest =>
    match updateStat cfg stat zs with
    | .error e => .error e
    | .ok cfg2 => update_ranges cfg2 rest

/-- Observation: whether the statistic is configured. -/
def isConfigured (cfg : Config V) (stat : String) : Bool :=
  (get_stat_config cfg stat).isSome

/-- Observation: the general `val_range` stored for a statistic. -/
def generalRange (cfg : Config V) (stat : String) : Option (VRange V) :=
  (get_stat_config cfg stat).bind (fun sc => sc.val_range)

/-- Observation: the raw `z_config[z]` state for a statistic: `none` when the
statistic, its `z_config`, or the entry for `z` is absent. -/
def perZoomEntry (cfg : Config V) (stat : String) (z : Nat) :
    Option (ZEntry V) :=
  (get_stat_config cfg stat).bind (fun sc => zview sc z)

/-- The per-zoom range stored at (stat, z), when one exists. -/
def perZoomRange (cfg : Config V) (stat : String) (z : Nat) :
    Option (VRange V) :=
  (perZoomEntry cfg stat z).bind id

/-- The min endpoint explicitly stored at (stat, z). -/
def entryMin (e : Option (ZEntry V)) : Option V :=
  match e with
  | some (some r) => r.1
  | _ => none

/-- The max endpoint explicitly stored at (stat, z). -/
def entryMax (e : Option (ZEntry V)) : Option V :=
  match e with
  | some (some r) => r.2
  | _ => none

/-- The min endpoint stored in the per-zoom range at (stat, z). -/
def perZoomMin (cfg : Config V) (stat : String) (z : Nat) : Option V :=
  entryMin (perZoomEntry cfg stat z)

/-- The max endpoint stored in the per-zoom range at (stat, z). -/
def perZoomMax (cfg : Config V) (stat : String) (z : Nat) : Option V :=
  entryMax (perZoomEntry cfg stat z)

/-- The range that `get_value_range` resolves to for a configured statistic
at a concrete z with substitution allowed. -/
def resolveTrue (sc : StatCfg V) (z : Nat) : Option (VRange V) :=
  (zview sc z).getD sc.val_range

/-- Fixture: a configuration with one statistic whose general range has its
min set and its max open-ended. -/
def cfgC1 : Config Int :=
  [{ name := "count", val_range := some (some 0, none), z_config := none }]

/-- Fixture: discovered ranges for `cfgC1` at z-level 3. -/
def nrC1 : List (String × List (Nat × (Option Int × Option Int))) :=
  [("count", [(3, (some 1, some 7))])]

/-- Fixture: the state `update_ranges cfgC1 nrC1` computes: only the missing
max endpoint was filled at z-level 3. -/
def cfgC1res : Config Int :=
  [{ name := "count", val_range := some (some 0, none),
     z_config := some [(3, some (none, some 7))] }]

/-- Fixture: a configuration with one statistic carrying both a general range
and a per-zoom range at z-level 3 whose max endpoint is unset. -/
def cfgC7 : Config Int :=
  [{ name := "s", val_range := some (some 0, some 10),
     z_config := some [(3, some (some 1, none))] }]

/-- Fixture: the statistic config stored in `cfgC7`. -/
def scC7 : StatCfg Int :=
  { name := "s", val_range := some (some 0, some 10),
    z_config := some [(3, some (some 1, none))] }

end ConfigManager

namespace Raster

/-- A polygon abstracted by its centroid coordinates: `__grid_by_centroid`
uses only the centroid of each polygon (coordinates modelled exactly as
rationals). -/
structure Pt where
  x : ℚ
  y : ℚ
deriving DecidableEq

/-- The raster bounding box, keys left / right / bottom / top. -/
structure Bounds where
  left : ℚ
  right : ℚ
  bottom : ℚ
  top : ℚ
deriving DecidableEq

/-- Fence j of `np.linspace(left, right, W + 1)` (the column edges). -/
def colFence (b : Bounds) (W : Nat) (j : Nat) : ℚ :=
  b.left + j * (b.right - b.left) / W

/-- Fence i of the reversed `np.linspace(bottom, top, H + 1)`: row fence 0 is
the top edge, row fence H the bottom edge. -/
def rowFence (b : Bounds) (H : Nat) (i : Nat) : ℚ :=
  b.top - i * (b.top - b.bottom) / H

/-- `np.searchsorted(self.cols, x) - 1`: the number of column fences strictly
below x, minus one. -/
def colIndex (b : Bounds) (W : Nat) (x : ℚ) : Int :=
  ((List.range (W + 1)).countP (fun j => decide (colFence b W j < x)) : Int)
    - 1

/-- `np.searchsorted(-self.rows, -y) - 1`: the number of row fences strictly
above y, minus one. -/
def rowIndex (b : Bounds) (H : Nat) (y : ℚ) : Int :=
  ((List.range (H + 1)).countP (fun i => decide (y < rowFence b H i)) : Int)
    - 1

/-- The in-grid filter of `__grid_by_centroid`:
`0 <= ri < H  and  0 <= ci < W`. -/
def inGrid (H W : Nat) (q : Pt × Int × Int) : Bool :=
  decide (0 ≤ q.2.1) && decide (q.2.1 < (H : Int)) &&
  decide (0 ≤ q.2.2) && decide (q.2.2 < (W : Int))

/-- `Raster.__grid_by_centroid`: each polygon is tagged with the (row, col)
cell containing its centroid, and polygons falling outside the grid are
dropped. -/
def grid_by_centroid (b : Bounds) (H W : Nat) (pts : List Pt) :
    List (Pt × Int × Int) :=
  (pts.map (fun p => (p, rowIndex b H p.y, colIndex b W p.x))).filter
    (inGrid H W)

/-- The value of a `centroids_per_pixel` / sum band at cell (r, c): the
grouped sum of the constant-1 column over the polygons binned into the cell,
with cells absent from the grouped result filled with 0 by `__as_array`. -/
def countCellValue (b : Bounds) (H W : Nat) (pts : List Pt) (r c : Nat) :
    Nat :=
  (grid_by_centroid b H W pts).countP
    (fun q => decide (q.2.1 = (r : Int)) && decide (q.2.2 = (c : Int)))

/-- The sum of the count band over the whole output grid. -/
def countBandSum (b : Bounds) (H W : Nat) (pts : List Pt) : Nat :=
  ∑ r ∈ Finset.range H, ∑ c ∈ Finset.range W, countCellValue b H W pts r c

/-- Membership of a centroid in the closed bounding box — the literal
reading of "the centroid falls within the bounding box". -/
def inClosedBBox (b : Bounds) (p : Pt) : Bool :=
  decide (b.left ≤ p.x) && decide (p.x ≤ b.right) &&
  decide (b.bottom ≤ p.y) && decide (p.y ≤ b.top)

/-- The half-open region whose centroids `__grid_by_centroid` actually
keeps: left < x ≤ right and bottom ≤ y < top. -/
def inKeptRegion (b : Bounds) (p : Pt) : Bool :=
  decide (b.left < p.x) && decide (p.x ≤ b.right) &&
  decide (b.bottom ≤ p.y) && decide (p.y < b.top)

/-- One grouped statistics result of `__calculate_stats`: an association
list from the (row, col) cell key to the aggregated band value. -/
abbrev Grouped := List ((Nat × Nat) × ℚ)

/-- The pandas outer merge on (row_index, col_index): every left row paired
with the matching right value when present, followed by the right-only
rows.  Missing sides are NA (`none`). -/
def outerMerge (cnt ar : Grouped) :
    List ((Nat × Nat) × (Option ℚ × Option ℚ)) :=
  cnt.map (fun kv => (kv.1, (some kv.2, List.lookup kv.1 ar)))
  ++ (ar.filter (fun kv => (List.lookup kv.1 cnt).isNone)).map
      (fun kv => (kv.1, ((none : Option ℚ), some kv.2)))

/-- `stats_df.fillna(0, inplace=True)`: NA cells produced by the outer merge
become the number 0. -/
def fillna0 (m : List ((Nat × Nat) × (Option ℚ × Option ℚ))) :
    List ((Nat × Nat) × (ℚ × ℚ)) :=
  m.map (fun kv => (kv.1, (kv.2.1.getD 0, kv.2.2.getD 0)))

/-- The merged stats dataframe built by `__calculate_stats` when both a
count-weighted and an area-weighted statistic are configured. -/
def mergedStats (cnt ar : Grouped) : List ((Nat × Nat) × (ℚ × ℚ)) :=
  fillna0 (outerMerge cnt ar)

/-- `Raster.__as_array`: the grid value of one band at a cell; a cell with
no row in the dataframe reads 0 (`reindex` with `fill_value=0`). -/
def asArray (rows : List ((Nat × Nat) × (ℚ × ℚ))) (sel : ℚ × ℚ → ℚ)
    (k : Nat × Nat) : ℚ :=
  match List.lookup k rows with
  | some v => sel v
  | none => 0

/-- The numpy dtypes relevant to `__create_raster_from_stats_df`. -/
inductive Dtype where
  | uint8
  | int8
  | uint16
  | int16
  | uint32
  | int32
  | int64
  | float64
deriving DecidableEq

/-- `np.min_scalar_type` applied to a NON-scalar array: per the numpy
documentation it returns the array's dtype unmodified — the stored values
are not inspected. -/
def min_scalar_type_of_array (d : Dtype) : Dtype := d

/-- The dtype choice of `__create_raster_from_stats_df`:
`np.min_scalar_type` of the concatenated column array (a non-scalar), with
int64 — unsupported by the driver — replaced by int32. -/
def chooseDtype (concatenated : Dtype) : Dtype :=
  if min_scalar_type_of_array concatenated = Dtype.int64 then Dtype.int32
  else min_scalar_type_of_array concatenated

/-- Modelled from the spec: "the narrowest type able to hold every computed
value across every band", for integer-valued bands, following the numpy
minimum-scalar-type ladder. -/
def narrowestIntDtype (vals : List Int) : Dtype :=
  if vals.all (fun v => 0 ≤ v && v ≤ 255) then Dtype.uint8
  else if vals.all (fun v => -128 ≤ v && v ≤ 127) then Dtype.int8
  else if vals.all (fun v => 0 ≤ v && v ≤ 65535) then Dtype.uint16
  else if vals.all (fun v => -32768 ≤ v && v ≤ 32767) then Dtype.int16
  else if vals.all (fun v => 0 ≤ v && v ≤ 4294967295) then Dtype.uint32
  else if vals.all (fun v => -2147483648 ≤ v && v ≤ 2147483647) then
    Dtype.int32
  else Dtype.int64

/-- The metadata of an opened child raster that `__get_and_check_rasters`
inspects (the CRS is an opaque identifier). -/
structure RasterMeta where
  crs : Nat
  count : Nat
deriving DecidableEq

/-- The failures of `from_rasters` (the spec's MergeError): no opened
rasters, mismatched CRS, mismatched band count. -/
inductive MergeError where
  | noRasters
  | crsMismatch
  | bandCountMismatch
deriving DecidableEq

/-- `Raster.__get_and_check_rasters` applied to the successfully opened
rasters: fail when the list is empty, when any raster's CRS differs from the
first raster's, or when any band count differs from the first raster's. -/
def get_and_check_rasters (rs : List RasterMeta) :
    Except MergeError (List RasterMeta) :=
  match rs with
  | [] => .error .noRasters
  | ref :: rest =>
    if !((ref :: rest).all (fun x => x.crs == ref.crs)) then
      .error .crsMismatch
    else if !((ref :: rest).all (fun x => x.count == ref.count)) then
      .error .bandCountMismatch
    else .ok (ref :: rest)

/-- `Raster.from_rasters` with `__merge_and_resample` abstracted as an
arbitrary merge function: the checks run first and any check failure aborts
before merging. -/
def from_rasters {M : Type} (merge : List RasterMeta → M)
    (rs : List RasterMeta) : Except MergeError M :=
  (get_and_check_rasters rs).map merge

end Raster

/-- Python `int()` / numpy `astype(int)` conversion of a finite float:
truncation toward zero. -/
def truncToInt (q : ℚ) : Int :=
  if 0 ≤ q then ⌊q⌋ else -⌊-q⌋

namespace WebImage

/-- A numpy float64 cell value as the rendering pipeline sees it: an exactly
represented finite value (modelled over the rationals), NaN, or an
infinity. -/
inductive Val where
  | fin (q : ℚ)
  | nan
  | pinf
  | ninf
deriving DecidableEq

/-- IEEE equality as used by the numpy mask `image_data == nodata_val`: NaN
compares unequal to everything, including itself. -/
def ieeeEq : Val → Val → Bool
  | .fin a, .fin b => a == b
  | .pinf, .pinf => true
  | .ninf, .ninf => true
  | _, _ => false

/-- IEEE strict less-than: every comparison involving NaN is false. -/
def ieeeLt : Val → Val → Bool
  | .fin a, .fin b => decide (a < b)
  | .fin _, .pinf => true
  | .ninf, .fin _ => true
  | .ninf, .pinf => true
  | _, _ => false

/-- The no-data mask entry for one cell: all-False when `nodata_val` is not
provided. -/
def noDataMask (nodata : Option Val) (v : Val) : Bool :=
  match nodata with
  | none => false
  | some nd => ieeeEq v nd

/-- The two clamp assignments of `to_image`:
`image_data[image_data < min_val] = min_val`, then on the updated array
`image_data[image_data > max_val] = max_val`. -/
def clampVal (minv maxv : Val) (v : Val) : Val :=
  let v1 := if ieeeLt v minv then minv else v
  if ieeeLt maxv v1 then maxv else v1

/-- `(value - min_val) * (255 / (max_val - min_val))` over float64 with
finite min and max: when max = min the scale `255 / 0` is +inf (numpy
divide-by-zero) and `0 * inf` is NaN. -/
def scaleTimes (minq maxq : ℚ) (v : ℚ) : Val :=
  if maxq = minq then
    if 0 < v - minq then .pinf
    else if v - minq < 0 then .ninf
    else .nan
  else .fin ((v - minq) * (255 / (maxq - minq)))

/-- Python list subscription with an integer index: negative indices wrap
once from the end; anything still out of range raises IndexError (`none`). -/
def pythonGet {α : Type} (l : List α) (i : Int) : Option α :=
  let j : Int := if 0 ≤ i then i else (l.length : Int) + i
  if 0 ≤ j then l[j.toNat]? else none

/-- The palette index `to_image` computes for one cell: masked no-data cells
are set to 256 after scaling; other cells are clamped, rescaled and
truncated.  `none` marks a cell whose scaled value is not finite — numpy's
`astype(int)` on NaN/inf is undefined (INT64_MIN in practice) and the
subsequent `rgba_list[...]` subscription raises IndexError. -/
def cellIndex (minq maxq : ℚ) (nodata : Option Val) (v : Val) : Option Int :=
  if noDataMask nodata v then some 256
  else
    match v with
    | .nan => none
    | _ =>
      match clampVal (.fin minq) (.fin maxq) v with
      | .fin vc =>
        match scaleTimes minq maxq vc with
        | .fin s => some (truncToInt s)
        | _ => none
      | _ => none

/-- The RGBA value `to_image` writes for one cell: the palette entry at the
computed index. -/
def cellColor (pal : List (Int × Int × Int × Int)) (minq maxq : ℚ)
    (nodata : Option Val) (v : Val) : Option (Int × Int × Int × Int) :=
  (cellIndex minq maxq nodata v).bind (fun i => pythonGet pal i)

/-- `WebImage.to_image`: the whole RGBA buffer; `none` when any cell's
computation crashes. -/
def to_image (pal : List (Int × Int × Int × Int)) (minq maxq : ℚ)
    (nodata : Option Val) (grid : List (List Val)) :
    Option (List (List (Int × Int × Int × Int))) :=
  grid.mapM (fun row => row.mapM (fun v => cellColor pal minq maxq nodata v))

end WebImage

namespace Palette

/-- An sRGB color as printed by coloraide (after its default gamut mapping)
and parsed back by `__coloraide_to_rgba__`: non-negative channel values on
the 0..255 scale and alpha on the 0..1 scale. -/
structure SColor where
  r : ℚ
  g : ℚ
  b : ℚ
  a : ℚ

/-- `Palette.__coloraide_to_rgba__`: parse the printed channels, scale alpha
by 255, and truncate every channel to an integer. -/
def coloraide_to_rgba (c : SColor) : List Int :=
  [truncToInt c.r, truncToInt c.g, truncToInt c.b, truncToInt (c.a * 255)]

/-- `Palette.get_color` (type='rgba') for the list-of-colors branch: a
non-numeric query yields the nodata color; a numeric query is clamped into
[0, 1] and fed to the coloraide lch interpolation, abstracted here as
`interp`. -/
def get_color (interp : ℚ → SColor) (nodataC : SColor) (val : Option ℚ) :
    List Int :=
  match val with
  | none => coloraide_to_rgba nodataC
  | some v => coloraide_to_rgba (interp (max 0 (min v 1)))

/-- `Palette.get_rgba_list` with the default pal_size = 256: the gradient
entries at x/256 for x in 0..255, then the nodata entry. -/
def get_rgba_list (interp : ℚ → SColor) (nodataC : SColor) :
    List (List Int) :=
  ((List.range 256).map
    (fun (x : Nat) => get_color interp nodataC (some ((x : ℚ) / 256))))
    ++ [get_color interp nodataC none]

/-- A printed color is in gamut: channels within [0, 255] and alpha within
[0, 1] — guaranteed by coloraide's gamut-mapping `to_string`. -/
def inGamut (c : SColor) : Prop :=
  0 ≤ c.r ∧ c.r ≤ 255 ∧ 0 ≤ c.g ∧ c.g ≤ 255 ∧ 0 ≤ c.b ∧ c.b ≤ 255 ∧
  0 ≤ c.a ∧ c.a ≤ 1

end Palette

end VizRaster

/-
Theorems.  Everything below this point is proof; all definitions are above.
-/

namespace VizRaster

namespace ConfigManager

variable {V : Type}

theorem get_stat_config_modifyStat (cfg : Config V) (stat stat' : String)
    (f : StatCfg V → StatCfg V) (hf : ∀ sc, (f sc).name = sc.name) :
    get_stat_config (modifyStat cfg stat f) stat' =
      if stat' = stat then (get_stat_config cfg stat).map f
      else get_stat_config cfg stat' := by
  induction cfg with
  | nil => simp [modifyStat, get_stat_config]
  | cons sc rest ih =>
    by_cases h1 : sc.name = stat
    · have hmod : modifyStat (sc :: rest) stat f = f sc :: rest := by
        simp [modifyStat, h1]
      rw [hmod]
      by_cases h2 : stat' = stat
      · subst h2
        simp [get_stat_config, hf, h1]
      · have h2' : stat ≠ stat' := fun h => h2 h.symm
        simp [get_stat_config, hf, h1, h2, h2']
    · have hmod : modifyStat (sc :: rest) stat f = sc :: modifyStat rest stat f := by
        simp [modifyStat, h1]
      rw [hmod]
      by_cases h3 : sc.name = stat'
      · have h4 : stat' ≠ stat := fun h => h1 (h3.trans h)
        simp [get_stat_config, h3, h4]
      · simp only [get_stat_config, beq_iff_eq, h3, if_false, ih]
        by_cases h5 : stat' = stat <;> simp [h5, h1, h3]

theorem lookup_zInsert_self (zc : List (Nat × ZEntry V)) (z : Nat)
    (g : ZEntry V → ZEntry V) :
    List.lookup z (zInsert zc z g) =
      some (g ((List.lookup z zc).getD none)) := by
  induction zc with
  | nil => simp [zInsert, List.lookup]
  | cons kv rest ih =>
    obtain ⟨k, e⟩ := kv
    by_cases h : k = z
    · subst h
      simp [zInsert, List.lookup]
    · simp only [zInsert, List.lookup, beq_iff_eq, h, if_false,
        (show (z == k) = false by simp [Ne.symm h])]
      simp [List.lookup, (show (z == k) = false by simp [Ne.symm h]), ih]

theorem lookup_zInsert_other (zc : List (Nat × ZEntry V)) (z z' : Nat)
    (g : ZEntry V → ZEntry V) (hne : z' ≠ z) :
    List.lookup z' (zInsert zc z g) = List.lookup z' zc := by
  induction zc with
  | nil =>
    simp only [zInsert, List.lookup]
    rw [show (z' == z) = false by simp [hne]]
  | cons kv rest ih =>
    obtain ⟨k, e⟩ := kv
    by_cases h : k = z
    · subst h
      simp only [zInsert, List.lookup, beq_self_eq_true, if_true]
      rw [show (z' == k) = false by simp [hne]]
    · simp only [zInsert, List.lookup, beq_iff_eq, h, if_false]
      cases hzk : (z' == k) <;> simp [List.lookup, hzk, ih]

theorem isConfigured_setZ (cfg : Config V) (stat : String) (z : Nat)
    (g : ZEntry V → ZEntry V) (stat' : String) :
    isConfigured (setZ cfg stat z g) stat' = isConfigured cfg stat' := by
  unfold isConfigured setZ
  rw [get_stat_config_modifyStat cfg stat stat'
    (fun sc => { sc with z_config := some (zInsert (sc.z_config.getD []) z g) })
    (fun sc => rfl)]
  by_cases h : stat' = stat
  · subst h
    rw [if_pos rfl]
    cases get_stat_config cfg stat' <;> rfl
  · rw [if_neg h]

theorem generalRange_setZ (cfg : Config V) (stat : String) (z : Nat)
    (g : ZEntry V → ZEntry V) (stat' : String) :
    generalRange (setZ cfg stat z g) stat' = generalRange cfg stat' := by
  unfold generalRange setZ
  rw [get_stat_config_modifyStat cfg stat stat'
    (fun sc => { sc with z_config := some (zInsert (sc.z_config.getD []) z g) })
    (fun sc => rfl)]
  by_cases h : stat' = stat
  · subst h
    rw [if_pos rfl]
    cases get_stat_config cfg stat' <;> rfl
  · rw [if_neg h]

theorem perZoomEntry_setZ_self (cfg : Config V) (stat : String) (z : Nat)
    (g : ZEntry V → ZEntry V) (sc : StatCfg V)
    (hsc : get_stat_config cfg stat = some sc) :
    perZoomEntry (setZ cfg stat z g) stat z =
      some (g ((zview sc z).getD none)) := by
  unfold perZoomEntry setZ
  rw [get_stat_config_modifyStat cfg stat stat
    (fun sc => { sc with z_config := some (zInsert (sc.z_config.getD []) z g) })
    (fun sc => rfl), if_pos rfl, hsc]
  show List.lookup z (zInsert (sc.z_config.getD []) z g) =
    some (g ((zview sc z).getD none))
  rw [lookup_zInsert_self]
  unfold zview
  cases sc.z_config <;> rfl

theorem perZoomEntry_setZ_other (cfg : Config V) (stat : String) (z : Nat)
    (g : ZEntry V → ZEntry V) (stat' : String) (z' : Nat)
    (h : stat' ≠ stat ∨ z' ≠ z) :
    perZoomEntry (setZ cfg stat z g) stat' z' = perZoomEntry cfg stat' z' := by
  unfold perZoomEntry setZ
  rw [get_stat_config_modifyStat cfg stat stat'
    (fun sc => { sc with z_config := some (zInsert (sc.z_config.getD []) z g) })
    (fun sc => rfl)]
  by_cases hs : stat' = stat
  · subst hs
    have hz : z' ≠ z := by
      rcases h with h | h
      · exact absurd rfl h
      · exact h
    rw [if_pos rfl]
    cases hsc : get_stat_config cfg stat' with
    | none => rfl
    | some sc =>
      show List.lookup z' (zInsert (sc.z_config.getD []) z g) = zview sc z'
      rw [lookup_zInsert_other _ _ _ _ hz]
      unfold zview
      cases sc.z_config <;> rfl
  · rw [if_neg hs]

theorem get_stat_config_setZ_self {cfg : Config V} {stat : String}
    {sc : StatCfg V} (z : Nat) (g : ZEntry V → ZEntry V)
    (hsc : get_stat_config cfg stat = some sc) :
    get_stat_config (setZ cfg stat z g) stat =
      some { sc with z_config := some (zInsert (sc.z_config.getD []) z g) } := by
  unfold setZ
  rw [get_stat_config_modifyStat cfg stat stat
    (fun sc => { sc with z_config := some (zInsert (sc.z_config.getD []) z g) })
    (fun sc => rfl), if_pos rfl, hsc]
  rfl

theorem get_value_range_zview_some {cfg : Config V} {stat : String} {z : Nat}
    {sc : StatCfg V} {e : ZEntry V}
    (hsc : get_stat_config cfg stat = some sc) (he : zview sc z = some e)
    (sub : Bool) :
    get_value_range cfg stat (some z) sub = .ok e := by
  unfold get_value_range
  simp only [hsc]
  unfold zview at he
  cases hzc : sc.z_config with
  | none => rw [hzc] at he; exact absurd he (by simp)
  | some zc =>
    rw [hzc] at he
    simp only [Option.some_bind] at he
    simp only [hzc, he]

theorem get_value_range_zview_none {cfg : Config V} {stat : String} {z : Nat}
    {sc : StatCfg V}
    (hsc : get_stat_config cfg stat = some sc) (he : zview sc z = none)
    (sub : Bool) :
    get_value_range cfg stat (some z) sub =
      .ok (if sub then sc.val_range else none) := by
  unfold get_value_range
  simp only [hsc]
  unfold zview at he
  cases hzc : sc.z_config with
  | none => simp only [hzc]
  | some zc =>
    rw [hzc] at he
    simp only [Option.some_bind] at he
    simp only [hzc, he]

theorem min_missing_zview_range {cfg : Config V} {stat : String} {z : Nat}
    {sc : StatCfg V} {r : VRange V}
    (hsc : get_stat_config cfg stat = some sc)
    (he : zview sc z = some (some r)) :
    min_missing cfg stat z true = .ok r.1.isNone := by
  unfold min_missing
  rw [get_value_range_zview_some hsc he]

theorem max_missing_zview_range {cfg : Config V} {stat : String} {z : Nat}
    {sc : StatCfg V} {r : VRange V}
    (hsc : get_stat_config cfg stat = some sc)
    (he : zview sc z = some (some r)) :
    max_missing cfg stat z true = .ok r.2.isNone := by
  unfold max_missing
  rw [get_value_range_zview_some hsc he]

theorem min_missing_zview_empty {cfg : Config V} {stat : String} {z : Nat}
    {sc : StatCfg V}
    (hsc : get_stat_config cfg stat = some sc)
    (he : zview sc z = some none) :
    min_missing cfg stat z true = .ok true := by
  unfold min_missing
  rw [get_value_range_zview_some hsc he]

theorem max_missing_zview_empty {cfg : Config V} {stat : String} {z : Nat}
    {sc : StatCfg V}
    (hsc : get_stat_config cfg stat = some sc)
    (he : zview sc z = some none) :
    max_missing cfg stat z true = .ok true := by
  unfold max_missing
  rw [get_value_range_zview_some hsc he]

theorem min_missing_zview_absent {cfg : Config V} {stat : String} {z : Nat}
    {sc : StatCfg V}
    (hsc : get_stat_config cfg stat = some sc) (he : zview sc z = none) :
    min_missing cfg stat z true =
      .ok (match sc.val_range with
           | none => true
           | some g => g.1.isNone) := by
  unfold min_missing
  rw [get_value_range_zview_none hsc he]
  cases sc.val_range <;> rfl

theorem max_missing_zview_absent {cfg : Config V} {stat : String} {z : Nat}
    {sc : StatCfg V}
    (hsc : get_stat_config cfg stat = some sc) (he : zview sc z = none) :
    max_missing cfg stat z true =
      .ok (match sc.val_range with
           | none => true
           | some g => g.2.isNone) := by
  unfold max_missing
  rw [get_value_range_zview_none hsc he]
  cases sc.val_range <;> rfl

theorem min_missing_not_configured {cfg : Config V} {stat : String} (z : Nat)
    (h : get_stat_config cfg stat = none) :
    min_missing cfg stat z true = .error .statNotFound := by
  unfold min_missing get_value_range
  rw [h]

theorem max_missing_not_configured {cfg : Config V} {stat : String} (z : Nat)
    (h : get_stat_config cfg stat = none) :
    max_missing cfg stat z true = .error .statNotFound := by
  unfold max_missing get_value_range
  rw [h]

theorem perZoomEntry_eq_zview {cfg : Config V} {stat : String} {sc : StatCfg V}
    (z : Nat) (hsc : get_stat_config cfg stat = some sc) :
    perZoomEntry cfg stat z = zview sc z := by
  unfold perZoomEntry
  rw [hsc]
  rfl

theorem generalRange_eq_val_range {cfg : Config V} {stat : String}
    {sc : StatCfg V} (hsc : get_stat_config cfg stat = some sc) :
    generalRange cfg stat = sc.val_range := by
  unfold generalRange
  rw [hsc]
  rfl

theorem min_missing_ok_configured {cfg : Config V} {stat : String} {z : Nat}
    {b : Bool} (h : min_missing cfg stat z true = .ok b) :
    ∃ sc, get_stat_config cfg stat = some sc := by
  cases hsc : get_stat_config cfg stat with
  | none => rw [min_missing_not_configured z hsc] at h; exact absurd h (by simp)
  | some sc => exact ⟨sc, rfl⟩

theorem max_missing_ok_configured {cfg : Config V} {stat : String} {z : Nat}
    {b : Bool} (h : max_missing cfg stat z true = .ok b) :
    ∃ sc, get_stat_config cfg stat = some sc := by
  cases hsc : get_stat_config cfg stat with
  | none => rw [max_missing_not_configured z hsc] at h; exact absurd h (by simp)
  | some sc => exact ⟨sc, rfl⟩

theorem perZoomMin_set_min_self {cfg : Config V} {stat : String}
    {sc : StatCfg V} (z : Nat) (v : Option V)
    (hsc : get_stat_config cfg stat = some sc) :
    perZoomMin (set_min cfg v stat (some z)) stat z = v := by
  show perZoomMin (setZ cfg stat z (fun e => setEntryMin e v)) stat z = v
  unfold perZoomMin
  rw [perZoomEntry_setZ_self cfg stat z _ sc hsc]
  cases (zview sc z).getD none <;> rfl

theorem perZoomMax_set_max_self {cfg : Config V} {stat : String}
    {sc : StatCfg V} (z : Nat) (v : Option V)
    (hsc : get_stat_config cfg stat = some sc) :
    perZoomMax (set_max cfg v stat (some z)) stat z = v := by
  show perZoomMax (setZ cfg stat z (fun e => setEntryMax e v)) stat z = v
  unfold perZoomMax
  rw [perZoomEntry_setZ_self cfg stat z _ sc hsc]
  cases (zview sc z).getD none <;> rfl

theorem perZoomMax_set_min_self {cfg : Config V} {stat : String}
    {sc : StatCfg V} (z : Nat) (v : Option V)
    (hsc : get_stat_config cfg stat = some sc) :
    perZoomMax (set_min cfg v stat (some z)) stat z = perZoomMax cfg stat z := by
  show perZoomMax (setZ cfg stat z (fun e => setEntryMin e v)) stat z = _
  unfold perZoomMax
  rw [perZoomEntry_setZ_self cfg stat z _ sc hsc,
    perZoomEntry_eq_zview z hsc]
  cases hz : zview sc z with
  | none => rfl
  | some e => cases e <;> rfl

theorem perZoomMin_set_max_self {cfg : Config V} {stat : String}
    {sc : StatCfg V} (z : Nat) (v : Option V)
    (hsc : get_stat_config cfg stat = some sc) :
    perZoomMin (set_max cfg v stat (some z)) stat z = perZoomMin cfg stat z := by
  show perZoomMin (setZ cfg stat z (fun e => setEntryMax e v)) stat z = _
  unfold perZoomMin
  rw [perZoomEntry_setZ_self cfg stat z _ sc hsc,
    perZoomEntry_eq_zview z hsc]
  cases hz : zview sc z with
  | none => rfl
  | some e => cases e <;> rfl

theorem min_missing_of_perZoomMin_some {cfg : Config V} {stat : String}
    {z : Nat} {v : V} (h : perZoomMin cfg stat z = some v) :
    min_missing cfg stat z true = .ok false := by
  unfold perZoomMin entryMin at h
  cases hsc : get_stat_config cfg stat with
  | none =>
    rw [show perZoomEntry cfg stat z = none by
      unfold perZoomEntry; rw [hsc]; rfl] at h
    exact absurd h (by simp)
  | some sc =>
    rw [perZoomEntry_eq_zview z hsc] at h
    cases hz : zview sc z with
    | none => rw [hz] at h; exact absurd h (by simp)
    | some e =>
      cases e with
      | none => rw [hz] at h; exact absurd h (by simp)
      | some r =>
        rw [hz] at h
        rw [min_missing_zview_range hsc hz]
        simp only at h
        rw [h]
        rfl

theorem max_missing_of_perZoomMax_some {cfg : Config V} {stat : String}
    {z : Nat} {v : V} (h : perZoomMax cfg stat z = some v) :
    max_missing cfg stat z true = .ok false := by
  unfold perZoomMax entryMax at h
  cases hsc : get_stat_config cfg stat with
  | none =>
    rw [show perZoomEntry cfg stat z = none by
      unfold perZoomEntry; rw [hsc]; rfl] at h
    exact absurd h (by simp)
  | some sc =>
    rw [perZoomEntry_eq_zview z hsc] at h
    cases hz : zview sc z with
    | none => rw [hz] at h; exact absurd h (by simp)
    | some e =>
      cases e with
      | none => rw [hz] at h; exact absurd h (by simp)
      | some r =>
        rw [hz] at h
        rw [max_missing_zview_range hsc hz]
        simp only at h
        rw [h]
        rfl

theorem max_missing_set_min {cfg : Config V} {stat : String} {sc : StatCfg V}
    (z : Nat) (v : Option V) (hsc : get_stat_config cfg stat = some sc)
    (hmx : max_missing cfg stat z true = .ok true) :
    max_missing (set_min cfg v stat (some z)) stat z true = .ok true := by
  obtain ⟨sc2, hsc2⟩ : ∃ sc2,
      get_stat_config (setZ cfg stat z (fun e => setEntryMin e v)) stat =
        some sc2 :=
    ⟨_, get_stat_config_setZ_self z _ hsc⟩
  have hzv2 : zview sc2 z = some (setEntryMin ((zview sc z).getD none) v) := by
    have hpe := perZoomEntry_setZ_self cfg stat z
      (fun e => setEntryMin e v) sc hsc
    rw [perZoomEntry_eq_zview z hsc2] at hpe
    exact hpe
  show max_missing (setZ cfg stat z (fun e => setEntryMin e v)) stat z true =
    .ok true
  cases hz : zview sc z with
  | none =>
    rw [max_missing_zview_range hsc2 (by rw [hzv2, hz]; rfl)]
    rfl
  | some e =>
    cases e with
    | none =>
      rw [max_missing_zview_range hsc2 (by rw [hzv2, hz]; rfl)]
      rfl
    | some r =>
      rw [max_missing_zview_range hsc2 (by rw [hzv2, hz]; rfl)]
      rw [max_missing_zview_range hsc hz] at hmx
      simp only [Except.ok.injEq] at hmx
      show Except.ok (v, r.2).2.isNone = Except.ok true
      simp only
      rw [hmx]

theorem updateOneMax_spec {cfg1 cfg2 : Config V} {stat : String} {z : Nat}
    {v : Option V} (h : updateOneMax cfg1 stat z v = .ok cfg2) :
    (∀ stat', isConfigured cfg2 stat' = isConfigured cfg1 stat') ∧
    (∀ stat', generalRange cfg2 stat' = generalRange cfg1 stat') ∧
    (∀ stat' z', (stat' ≠ stat ∨ z' ≠ z) →
        perZoomEntry cfg2 stat' z' = perZoomEntry cfg1 stat' z') ∧
    (∀ stat' z', perZoomMin cfg2 stat' z' = perZoomMin cfg1 stat' z') ∧
    (max_missing cfg1 stat z true = .ok true → perZoomMax cfg2 stat z = v) ∧
    (∀ w, perZoomMax cfg1 stat z = some w → perZoomMax cfg2 stat z = some w) := by
  unfold updateOneMax at h
  cases hxm : max_missing cfg1 stat z true with
  | error e => rw [hxm] at h; exact absurd h (by simp)
  | ok xm =>
    rw [hxm] at h
    simp only [Except.ok.injEq] at h
    cases xm with
    | false =>
      rw [if_neg (by simp)] at h
      subst h
      refine ⟨fun _ => rfl, fun _ => rfl, fun _ _ _ => rfl, fun _ _ => rfl,
        ?_, fun w hw => hw⟩
      intro htrue
      exact absurd htrue (by simp)
    | true =>
      rw [if_pos rfl] at h
      subst h
      obtain ⟨sc, hsc⟩ := max_missing_ok_configured hxm
      have hsetz : set_max cfg1 v stat (some z) =
          setZ cfg1 stat z (fun e => setEntryMax e v) := rfl
      refine ⟨?_, ?_, ?_, ?_, fun _ => perZoomMax_set_max_self z v hsc, ?_⟩
      · intro stat'
        rw [hsetz, isConfigured_setZ cfg1 stat z _ stat']
      · intro stat'
        rw [hsetz, generalRange_setZ cfg1 stat z _ stat']
      · intro stat' z' hor
        rw [hsetz, perZoomEntry_setZ_other cfg1 stat z _ stat' z' hor]
      · intro stat' z'
        by_cases hs : stat' = stat
        · subst hs
          by_cases hz : z' = z
          · subst hz
            exact perZoomMin_set_max_self z' v hsc
          · unfold perZoomMin
            rw [hsetz, perZoomEntry_setZ_other cfg1 stat' z _ stat' z'
              (Or.inr hz)]
        · unfold perZoomMin
          rw [hsetz, perZoomEntry_setZ_other cfg1 stat z _ stat' z'
            (Or.inl hs)]
      · intro w hw
        rw [max_missing_of_perZoomMax_some hw] at hxm
        exact absurd hxm (by simp)

theorem updateOne_spec {cfg cfg2 : Config V} {stat : String} {z : Nat}
    {vr : Option V × Option V} (h : updateOne cfg stat z vr = .ok cfg2) :
    (∀ stat', isConfigured cfg2 stat' = isConfigured cfg stat') ∧
    (∀ stat', generalRange cfg2 stat' = generalRange cfg stat') ∧
    (∀ stat' z', (stat' ≠ stat ∨ z' ≠ z) →
        perZoomEntry cfg2 stat' z' = perZoomEntry cfg stat' z') ∧
    (min_missing cfg stat z true = .ok true → perZoomMin cfg2 stat z = vr.1) ∧
    (∀ w, perZoomMin cfg stat z = some w → perZoomMin cfg2 stat z = some w) ∧
    (max_missing cfg stat z true = .ok true → perZoomMax cfg2 stat z = vr.2) ∧
    (∀ w, perZoomMax cfg stat z = some w → perZoomMax cfg2 stat z = some w) := by
  unfold updateOne at h
  cases hmm : min_missing cfg stat z true with
  | error e => rw [hmm] at h; exact absurd h (by simp)
  | ok mm =>
    rw [hmm] at h
    simp only at h
    obtain ⟨sc, hsc⟩ := min_missing_ok_configured hmm
    cases mm with
    | false =>
      rw [if_neg (by simp)] at h
      obtain ⟨hconf, hgen, hframe, hminall, hmaxfill, hmaxkeep⟩ :=
        updateOneMax_spec h
      refine ⟨hconf, hgen, hframe, ?_, ?_, hmaxfill, hmaxkeep⟩
      · intro htrue
        exact absurd htrue (by simp)
      · intro w hw
        rw [hminall stat z, hw]
    | true =>
      rw [if_pos rfl] at h
      obtain ⟨hconf, hgen, hframe, hminall, hmaxfill, hmaxkeep⟩ :=
        updateOneMax_spec h
      have hconf1 : ∀ stat',
          isConfigured (set_min cfg vr.1 stat (some z)) stat' =
            isConfigured cfg stat' :=
        fun stat' => isConfigured_setZ cfg stat z _ stat'
      have hgen1 : ∀ stat',
          generalRange (set_min cfg vr.1 stat (some z)) stat' =
            generalRange cfg stat' :=
        fun stat' => generalRange_setZ cfg stat z _ stat'
      have hframe1 : ∀ stat' z', (stat' ≠ stat ∨ z' ≠ z) →
          perZoomEntry (set_min cfg vr.1 stat (some z)) stat' z' =
            perZoomEntry cfg stat' z' :=
        fun stat' z' hor => perZoomEntry_setZ_other cfg stat z _ stat' z' hor
      refine ⟨fun stat' => (hconf stat').trans (hconf1 stat'),
        fun stat' => (hgen stat').trans (hgen1 stat'),
        fun stat' z' hor => (hframe stat' z' hor).trans (hframe1 stat' z' hor),
        ?_, ?_, ?_, ?_⟩
      · intro _
        rw [hminall stat z, perZoomMin_set_min_self z vr.1 hsc]
      · intro w hw
        rw [min_missing_of_perZoomMin_some hw] at hmm
        exact absurd hmm (by simp)
      · intro hmx
        exact hmaxfill (max_missing_set_min z vr.1 hsc hmx)
      · intro w hw
        exact hmaxkeep w (by rw [perZoomMax_set_min_self z vr.1 hsc]; exact hw)

theorem min_missing_congr {cfga cfgb : Config V} {stat : String} {z : Nat}
    (hconf : isConfigured cfga stat = isConfigured cfgb stat)
    (hgen : generalRange cfga stat = generalRange cfgb stat)
    (hz : perZoomEntry cfga stat z = perZoomEntry cfgb stat z) :
    min_missing cfga stat z true = min_missing cfgb stat z true := by
  cases ha : get_stat_config cfga stat with
  | none =>
    cases hb : get_stat_config cfgb stat with
    | none => rw [min_missing_not_configured z ha,
        min_missing_not_configured z hb]
    | some scb =>
      unfold isConfigured at hconf
      rw [ha, hb] at hconf
      exact absurd hconf (by simp)
  | some sca =>
    cases hb : get_stat_config cfgb stat with
    | none =>
      unfold isConfigured at hconf
      rw [ha, hb] at hconf
      exact absurd hconf (by simp)
    | some scb =>
      have hzv : zview sca z = zview scb z := by
        rw [perZoomEntry_eq_zview z ha, perZoomEntry_eq_zview z hb] at hz
        exact hz
      have hvr : sca.val_range = scb.val_range := by
        rw [generalRange_eq_val_range ha, generalRange_eq_val_range hb] at hgen
        exact hgen
      cases he : zview sca z with
      | some e =>
        cases e with
        | some r =>
          rw [min_missing_zview_range ha he,
            min_missing_zview_range hb (hzv.symm.trans he)]
        | none =>
          rw [min_missing_zview_empty ha he,
            min_missing_zview_empty hb (hzv.symm.trans he)]
      | none =>
        rw [min_missing_zview_absent ha he,
          min_missing_zview_absent hb (hzv.symm.trans he), hvr]

theorem max_missing_congr {cfga cfgb : Config V} {stat : String} {z : Nat}
    (hconf : isConfigured cfga stat = isConfigured cfgb stat)
    (hgen : generalRange cfga stat = generalRange cfgb stat)
    (hz : perZoomEntry cfga stat z = perZoomEntry cfgb stat z) :
    max_missing cfga stat z true = max_missing cfgb stat z true := by
  cases ha : get_stat_config cfga stat with
  | none =>
    cases hb : get_stat_config cfgb stat with
    | none => rw [max_missing_not_configured z ha,
        max_missing_not_configured z hb]
    | some scb =>
      unfold isConfigured at hconf
      rw [ha, hb] at hconf
      exact absurd hconf (by simp)
  | some sca =>
    cases hb : get_stat_config cfgb stat with
    | none =>
      unfold isConfigured at hconf
      rw [ha, hb] at hconf
      exact absurd hconf (by simp)
    | some scb =>
      have hzv : zview sca z = zview scb z := by
        rw [perZoomEntry_eq_zview z ha, perZoomEntry_eq_zview z hb] at hz
        exact hz
      have hvr : sca.val_range = scb.val_range := by
        rw [generalRange_eq_val_range ha, generalRange_eq_val_range hb] at hgen
        exact hgen
      cases he : zview sca z with
      | some e =>
        cases e with
        | some r =>
          rw [max_missing_zview_range ha he,
            max_missing_zview_range hb (hzv.symm.trans he)]
        | none =>
          rw [max_missing_zview_empty ha he,
            max_missing_zview_empty hb (hzv.symm.trans he)]
      | none =>
        rw [max_missing_zview_absent ha he,
          max_missing_zview_absent hb (hzv.symm.trans he), hvr]

theorem updateStat_spec {cfg cfg2 : Config V} {stat : String}
    {zs : List (Nat × (Option V × Option V))}
    (h : updateStat cfg stat zs = .ok cfg2)
    (hnd : (zs.map Prod.fst).Nodup) :
    (∀ stat', isConfigured cfg2 stat' = isConfigured cfg stat') ∧
    (∀ stat', generalRange cfg2 stat' = generalRange cfg stat') ∧
    (∀ stat' z', (stat' ≠ stat ∨ z' ∉ zs.map Prod.fst) →
        perZoomEntry cfg2 stat' z' = perZoomEntry cfg stat' z') ∧
    (∀ stat' z' w, perZoomMin cfg stat' z' = some w →
        perZoomMin cfg2 stat' z' = some w) ∧
    (∀ stat' z' w, perZoomMax cfg stat' z' = some w →
        perZoomMax cfg2 stat' z' = some w) ∧
    (∀ q ∈ zs,
      (min_missing cfg stat q.1 true = .ok true →
          perZoomMin cfg2 stat q.1 = q.2.1) ∧
      (max_missing cfg stat q.1 true = .ok true →
          perZoomMax cfg2 stat q.1 = q.2.2)) := by
  induction zs generalizing cfg with
  | nil =>
    unfold updateStat at h
    simp only [Except.ok.injEq] at h
    subst h
    exact ⟨fun _ => rfl, fun _ => rfl, fun _ _ _ => rfl,
      fun _ _ _ hw => hw, fun _ _ _ hw => hw, fun q hq => absurd hq (by simp)⟩
  | cons head rest ih =>
    obtain ⟨z, vr⟩ := head
    unfold updateStat at h
    cases hone : updateOne cfg stat z vr with
    | error e => rw [hone] at h; exact absurd h (by simp)
    | ok cfg1 =>
      rw [hone] at h
      have hzrest : z ∉ rest.map Prod.fst := by
        simp only [List.map_cons, List.nodup_cons] at hnd
        exact hnd.1
      have hndrest : (rest.map Prod.fst).Nodup := by
        simp only [List.map_cons, List.nodup_cons] at hnd
        exact hnd.2
      obtain ⟨oconf, ogen, oframe, ominfill, ominkeep, omaxfill, omaxkeep⟩ :=
        updateOne_spec hone
      obtain ⟨rconf, rgen, rframe, rminkeep, rmaxkeep, rfill⟩ := ih h hndrest
      refine ⟨fun stat' => (rconf stat').trans (oconf stat'),
        fun stat' => (rgen stat').trans (ogen stat'), ?_, ?_, ?_, ?_⟩
      · intro stat' z' hor
        have hor1 : stat' ≠ stat ∨ z' ≠ z := by
          rcases hor with hs | hz
          · exact Or.inl hs
          · right
            intro hzeq
            subst hzeq
            exact hz (by simp)
        have hor2 : stat' ≠ stat ∨ z' ∉ rest.map Prod.fst := by
          rcases hor with hs | hz
          · exact Or.inl hs
          · right
            intro hmem
            exact hz (by simp [hmem])
        rw [rframe stat' z' hor2, oframe stat' z' hor1]
      · intro stat' z' w hw
        by_cases hs : stat' = stat
        · subst hs
          by_cases hz : z' = z
          · subst hz
            exact rminkeep stat' z' w (ominkeep w hw)
          · have he := oframe stat' z' (Or.inr hz)
            exact rminkeep stat' z' w
              (by unfold perZoomMin; rw [he]; exact hw)
        · have he := oframe stat' z' (Or.inl hs)
          exact rminkeep stat' z' w (by unfold perZoomMin; rw [he]; exact hw)
      · intro stat' z' w hw
        by_cases hs : stat' = stat
        · subst hs
          by_cases hz : z' = z
          · subst hz
            exact rmaxkeep stat' z' w (omaxkeep w hw)
          · have he := oframe stat' z' (Or.inr hz)
            exact rmaxkeep stat' z' w
              (by unfold perZoomMax; rw [he]; exact hw)
        · have he := oframe stat' z' (Or.inl hs)
          exact rmaxkeep stat' z' w (by unfold perZoomMax; rw [he]; exact hw)
      · intro q hq
        rcases List.mem_cons.mp hq with hq1 | hq2
        · subst hq1
          constructor
          · intro hmin
            have h1 : perZoomMin cfg1 stat z = vr.1 := ominfill hmin
            have he := rframe stat z (Or.inr hzrest)
            show perZoomMin cfg2 stat z = vr.1
            unfold perZoomMin
            rw [he]
            exact h1
          · intro hmax
            have h1 : perZoomMax cfg1 stat z = vr.2 := omaxfill hmax
            have he := rframe stat z (Or.inr hzrest)
            show perZoomMax cfg2 stat z = vr.2
            unfold perZoomMax
            rw [he]
            exact h1
        · have hq1z : q.1 ≠ z := by
            intro hzeq
            apply hzrest
            rw [← hzeq]
            exact List.mem_map_of_mem Prod.fst hq2
          have hcongr_min :
              min_missing cfg1 stat q.1 true = min_missing cfg stat q.1 true :=
            min_missing_congr (oconf stat) (ogen stat)
              (oframe stat q.1 (Or.inr hq1z))
          have hcongr_max :
              max_missing cfg1 stat q.1 true = max_missing cfg stat q.1 true :=
            max_missing_congr (oconf stat) (ogen stat)
              (oframe stat q.1 (Or.inr hq1z))
          obtain ⟨rf1, rf2⟩ := rfill q hq2
          exact ⟨fun hmin => rf1 (by rw [hcongr_min]; exact hmin),
            fun hmax => rf2 (by rw [hcongr_max]; exact hmax)⟩

theorem update_ranges_spec {cfg cfg2 : Config V}
    {nr : List (String × List (Nat × (Option V × Option V)))}
    (h : update_ranges cfg nr = .ok cfg2)
    (hstats : (nr.map Prod.fst).Nodup)
    (hzs : ∀ p ∈ nr, (p.2.map Prod.fst).Nodup) :
    (∀ stat', isConfigured cfg2 stat' = isConfigured cfg stat') ∧
    (∀ stat', generalRange cfg2 stat' = generalRange cfg stat') ∧
    (∀ stat' z', stat' ∉ nr.map Prod.fst →
        perZoomEntry cfg2 stat' z' = perZoomEntry cfg stat' z') ∧
    (∀ stat' z' w, perZoomMin cfg stat' z' = some w →
        perZoomMin cfg2 stat' z' = some w) ∧
    (∀ stat' z' w, perZoomMax cfg stat' z' = some w →
        perZoomMax cfg2 stat' z' = some w) ∧
    (∀ p ∈ nr, ∀ q ∈ p.2,
      (min_missing cfg p.1 q.1 true = .ok true →
          perZoomMin cfg2 p.1 q.1 = q.2.1) ∧
      (max_missing cfg p.1 q.1 true = .ok true →
          perZoomMax cfg2 p.1 q.1 = q.2.2)) := by
  induction nr generalizing cfg with
  | nil =>
    unfold update_ranges at h
    simp only [Except.ok.injEq] at h
    subst h
    exact ⟨fun _ => rfl, fun _ => rfl, fun _ _ _ => rfl,
      fun _ _ _ hw => hw, fun _ _ _ hw => hw, fun p hp => absurd hp (by simp)⟩
  | cons head rest ih =>
    obtain ⟨stat, zs⟩ := head
    unfold update_ranges at h
    cases hstep : updateStat cfg stat zs with
    | error e => rw [hstep] at h; exact absurd h (by simp)
    | ok cfg1 =>
      rw [hstep] at h
      have hsrest : stat ∉ rest.map Prod.fst := by
        simp only [List.map_cons, List.nodup_cons] at hstats
        exact hstats.1
      have hndrest : (rest.map Prod.fst).Nodup := by
        simp only [List.map_cons, List.nodup_cons] at hstats
        exact hstats.2
      have hzshead : (zs.map Prod.fst).Nodup := hzs (stat, zs) (by simp)
      have hzsrest : ∀ p ∈ rest, (p.2.map Prod.fst).Nodup :=
        fun p hp => hzs p (List.mem_cons_of_mem _ hp)
      obtain ⟨sconf, sgen, sframe, sminkeep, smaxkeep, sfill⟩ :=
        updateStat_spec hstep hzshead
      obtain ⟨rconf, rgen, rframe, rminkeep, rmaxkeep, rfill⟩ :=
        ih h hndrest hzsrest
      refine ⟨fun stat' => (rconf stat').trans (sconf stat'),
        fun stat' => (rgen stat').trans (sgen stat'), ?_, ?_, ?_, ?_⟩
      · intro stat' z' hmem
        have hne : stat' ≠ stat := by
          intro hs
          subst hs
          exact hmem (by simp)
        have hmem2 : stat' ∉ rest.map Prod.fst := by
          intro hm
          exact hmem (by simp [hm])
        rw [rframe stat' z' hmem2, sframe stat' z' (Or.inl hne)]
      · intro stat' z' w hw
        exact rminkeep stat' z' w (sminkeep stat' z' w hw)
      · intro stat' z' w hw
        exact rmaxkeep stat' z' w (smaxkeep stat' z' w hw)
      · intro p hp q hq
        rcases List.mem_cons.mp hp with hp1 | hp2
        · subst hp1
          obtain ⟨sf1, sf2⟩ := sfill q hq
          have hframe2 := rframe stat q.1 hsrest
          constructor
          · intro hmin
            show perZoomMin cfg2 stat q.1 = q.2.1
            unfold perZoomMin
            rw [hframe2]
            exact sf1 hmin
          · intro hmax
            show perZoomMax cfg2 stat q.1 = q.2.2
            unfold perZoomMax
            rw [hframe2]
            exact sf2 hmax
        · have hpne : p.1 ≠ stat := by
            intro hs
            apply hsrest
            rw [← hs]
            exact List.mem_map_of_mem Prod.fst hp2
          have hcong_min :
              min_missing cfg1 p.1 q.1 true =
                min_missing cfg p.1 q.1 true :=
            min_missing_congr (sconf p.1) (sgen p.1)
              (sframe p.1 q.1 (Or.inl hpne))
          have hcong_max :
              max_missing cfg1 p.1 q.1 true =
                max_missing cfg p.1 q.1 true :=
            max_missing_congr (sconf p.1) (sgen p.1)
              (sframe p.1 q.1 (Or.inl hpne))
          obtain ⟨rf1, rf2⟩ := rfill p hp2 q hq
          exact ⟨fun hmin => rf1 (by rw [hcong_min]; exact hmin),
            fun hmax => rf2 (by rw [hcong_max]; exact hmax)⟩

/-- C1: for every configuration state and every dictionary of discovered
per-zoom ranges (a dictionary, so statistic keys and z-level keys are
duplicate-free, and every named statistic is configured or `update_ranges`
raises), after `update_ranges` every endpoint that was previously set — in a
per-zoom range or in a statistic's general range — is unchanged, and every
endpoint that was missing by the substituting definition (`min_missing` /
`max_missing` with substitution) now equals the corresponding discovered
value. -/
theorem claim_C1_update_ranges_range_monotonicity {V : Type}
    (cfg cfg2 : Config V)
    (nr : List (String × List (Nat × (Option V × Option V))))
    (hok : update_ranges cfg nr = .ok cfg2)
    (hstats : (nr.map Prod.fst).Nodup)
    (hzs : ∀ p ∈ nr, (p.2.map Prod.fst).Nodup) :
    (∀ stat, generalRange cfg2 stat = generalRange cfg stat) ∧
    (∀ stat z v, perZoomMin cfg stat z = some v →
        perZoomMin cfg2 stat z = some v) ∧
    (∀ stat z v, perZoomMax cfg stat z = some v →
        perZoomMax cfg2 stat z = some v) ∧
    (∀ p ∈ nr, ∀ q ∈ p.2,
      (min_missing cfg p.1 q.1 true = .ok true →
          perZoomMin cfg2 p.1 q.1 = q.2.1) ∧
      (max_missing cfg p.1 q.1 true = .ok true →
          perZoomMax cfg2 p.1 q.1 = q.2.2)) := by
  obtain ⟨_, hgen, _, hmin, hmax, hfill⟩ := update_ranges_spec hok hstats hzs
  exact ⟨hgen, hmin, hmax, hfill⟩

/-- Witness for C1: on the fixture, `update_ranges` leaves the configured
general min untouched and fills the missing per-zoom max with the discovered
value. -/
theorem claim_C1_witness :
    generalRange cfgC1res "count" = some (some (0 : Int), none) ∧
    perZoomMax cfgC1res "count" 3 = some (7 : Int) := by
  obtain ⟨hgen, _, _, hfill⟩ :=
    claim_C1_update_ranges_range_monotonicity cfgC1 cfgC1res nrC1 rfl
      (by simp [nrC1])
      (by intro p hp; simp only [nrC1, List.mem_singleton] at hp; subst hp
          simp)
  refine ⟨?_, ?_⟩
  · rw [hgen "count"]
    rfl
  · exact (hfill ("count", [(3, (some 1, some 7))]) (by simp [nrC1])
      (3, (some 1, some 7)) (by simp)).2 rfl

/-- C7: for a configured statistic, `get_value_range` resolves the per-zoom
range when one exists at (stat, z); otherwise it falls back to the general
range exactly when substitution is requested, and yields None otherwise; and
`get_min` / `get_max` with substitution fill a missing endpoint from the
general range independently of the other endpoint. -/
theorem claim_C7_value_range_resolution {V : Type} (cfg : Config V)
    (stat : String) (sc : StatCfg V) (z : Nat) (sub : Bool)
    (hsc : get_stat_config cfg stat = some sc)
    (hwf : ∀ e, zview sc z = some e → e ≠ none) :
    (∀ r, perZoomRange cfg stat z = some r →
        get_value_range cfg stat (some z) sub = .ok (some r)) ∧
    (perZoomRange cfg stat z = none →
        get_value_range cfg stat (some z) sub =
          .ok (if sub then sc.val_range else none)) ∧
    (∀ r g, perZoomRange cfg stat z = some r → sc.val_range = some g →
        (get_min cfg stat (some z) true =
          .ok (match r.1 with
               | some v => some v
               | none => g.1)) ∧
        (get_max cfg stat (some z) true =
          .ok (match r.2 with
               | some v => some v
               | none => g.2))) := by
  have hpr : perZoomRange cfg stat z = (zview sc z).bind id := by
    unfold perZoomRange
    rw [perZoomEntry_eq_zview z hsc]
  have hcase : ∀ r, perZoomRange cfg stat z = some r →
      zview sc z = some (some r) := by
    intro r hr
    rw [hpr] at hr
    cases hz : zview sc z with
    | none => rw [hz] at hr; exact absurd hr (by simp)
    | some e =>
      rw [hz] at hr
      simp only [Option.some_bind, id] at hr
      rw [hr]
  have hgen : get_value_range cfg stat none false = .ok sc.val_range := by
    unfold get_value_range
    simp only [hsc]
  refine ⟨?_, ?_, ?_⟩
  · intro r hr
    exact get_value_range_zview_some hsc (hcase r hr) sub
  · intro hr
    rw [hpr] at hr
    cases hz : zview sc z with
    | none => exact get_value_range_zview_none hsc hz sub
    | some e =>
      rw [hz] at hr
      simp only [Option.some_bind, id] at hr
      exact absurd hr (hwf e hz)
  · intro r g hr hg
    have hzv := hcase r hr
    have hgvr := get_value_range_zview_some hsc hzv true
    constructor
    · unfold get_min
      simp only [hgvr]
      cases hr1 : r.1 with
      | some v => rfl
      | none => rw [hgen, hg, if_pos trivial]
    · unfold get_max
      simp only [hgvr]
      cases hr2 : r.2 with
      | some v => rfl
      | none => rw [hgen, hg, if_pos trivial]

/-- Witness for C7: on the fixture, the per-zoom range (min 1, max unset)
resolves directly, and with substitution the set per-zoom min is kept while
the unset per-zoom max is filled from the general range. -/
theorem claim_C7_witness :
    get_value_range cfgC7 "s" (some 3) false = .ok (some (some 1, none)) ∧
    get_min cfgC7 "s" (some 3) true = .ok (some (1 : Int)) ∧
    get_max cfgC7 "s" (some 3) true = .ok (some (10 : Int)) := by
  have hwf : ∀ e, zview scC7 3 = some e → e ≠ none := by
    intro e he
    rw [show zview scC7 3 = some (some ((some (1 : Int)), none)) from rfl]
      at he
    injection he with he2
    rw [← he2]
    simp
  obtain ⟨h1, _, h3⟩ :=
    claim_C7_value_range_resolution cfgC7 "s" scC7 3 false rfl hwf
  obtain ⟨hmin, hmax⟩ := h3 (some 1, none) (some 0, some 10) rfl rfl
  exact ⟨h1 (some 1, none) rfl, hmin, hmax⟩

end ConfigManager

namespace Raster

theorem colFence_mono (b : Bounds) (W : Nat) (hlr : b.left < b.right)
    {j j' : Nat} (h : j ≤ j') : colFence b W j ≤ colFence b W j' := by
  unfold colFence
  rw [mul_div_assoc, mul_div_assoc]
  have hj : (j : ℚ) ≤ (j' : ℚ) := by exact_mod_cast h
  have hd : (0 : ℚ) ≤ (b.right - b.left) / W :=
    div_nonneg (by linarith) (by positivity)
  have := mul_le_mul_of_nonneg_right hj hd
  linarith

theorem colFence_zero (b : Bounds) (W : Nat) : colFence b W 0 = b.left := by
  unfold colFence
  simp

theorem colFence_last (b : Bounds) {W : Nat} (hW : 0 < W) :
    colFence b W W = b.right := by
  unfold colFence
  have hWne : (W : ℚ) ≠ 0 := by
    exact_mod_cast Nat.pos_iff_ne_zero.mp hW
  field_simp

theorem rowFence_anti (b : Bounds) (H : Nat) (hbt : b.bottom < b.top)
    {i i' : Nat} (h : i ≤ i') : rowFence b H i' ≤ rowFence b H i := by
  unfold rowFence
  rw [mul_div_assoc, mul_div_assoc]
  have hi : (i : ℚ) ≤ (i' : ℚ) := by exact_mod_cast h
  have hd : (0 : ℚ) ≤ (b.top - b.bottom) / H :=
    div_nonneg (by linarith) (by positivity)
  have := mul_le_mul_of_nonneg_right hi hd
  linarith

theorem rowFence_zero (b : Bounds) (H : Nat) : rowFence b H 0 = b.top := by
  unfold rowFence
  simp

theorem rowFence_last (b : Bounds) {H : Nat} (hH : 0 < H) :
    rowFence b H H = b.bottom := by
  unfold rowFence
  have hHne : (H : ℚ) ≠ 0 := by
    exact_mod_cast Nat.pos_iff_ne_zero.mp hH
  field_simp

theorem colIndex_mem_iff (b : Bounds) {W : Nat} (x : ℚ)
    (hlr : b.left < b.right) (hW : 0 < W) :
    (0 ≤ colIndex b W x ∧ colIndex b W x < (W : Int)) ↔
      (b.left < x ∧ x ≤ b.right) := by
  have hlen : ((List.range (W + 1)).countP
      (fun j => decide (colFence b W j < x))) ≤ W + 1 := by
    have := List.countP_le_length
      (p := fun j => decide (colFence b W j < x)) (l := List.range (W + 1))
    simpa using this
  constructor
  · rintro ⟨h1, h2⟩
    unfold colIndex at h1 h2
    have hcnt1 : 0 < (List.range (W + 1)).countP
        (fun j => decide (colFence b W j < x)) := by omega
    have hcnt2 : ((List.range (W + 1)).countP
        (fun j => decide (colFence b W j < x))) < W + 1 := by omega
    constructor
    · obtain ⟨j, hj, hjp⟩ := List.countP_pos_iff.mp hcnt1
      have hjx : colFence b W j < x := of_decide_eq_true hjp
      have hle : b.left ≤ colFence b W j := by
        rw [← colFence_zero b W]
        exact colFence_mono b W hlr (Nat.zero_le j)
      linarith
    · by_contra hx
      push_neg at hx
      have hall : ∀ j ∈ List.range (W + 1),
          decide (colFence b W j < x) = true := by
        intro j hj
        have hjW : j ≤ W := by
          simp only [List.mem_range] at hj
          omega
        have : colFence b W j ≤ b.right := by
          rw [← colFence_last b hW]
          exact colFence_mono b W hlr hjW
        simp only [decide_eq_true_eq]
        linarith
      have heq := List.countP_eq_length.mpr hall
      rw [List.length_range] at heq
      omega
  · rintro ⟨h1, h2⟩
    have hcnt1 : 0 < (List.range (W + 1)).countP
        (fun j => decide (colFence b W j < x)) := by
      refine List.countP_pos_iff.mpr ⟨0, by simp, ?_⟩
      simp only [decide_eq_true_eq, colFence_zero]
      exact h1
    have hcnt2 : ((List.range (W + 1)).countP
        (fun j => decide (colFence b W j < x))) < W + 1 := by
      rcases Nat.lt_or_ge ((List.range (W + 1)).countP
        (fun j => decide (colFence b W j < x))) (W + 1) with h | h
      · exact h
      · exfalso
        have heq : ((List.range (W + 1)).countP
            (fun j => decide (colFence b W j < x))) = W + 1 := by omega
        have hallp := List.countP_eq_length.mp
          (by rw [List.length_range]; exact heq)
        have hWp := hallp W (by simp)
        have : colFence b W W < x := of_decide_eq_true hWp
        rw [colFence_last b hW] at this
        linarith
    unfold colIndex
    omega

theorem rowIndex_mem_iff (b : Bounds) {H : Nat} (y : ℚ)
    (hbt : b.bottom < b.top) (hH : 0 < H) :
    (0 ≤ rowIndex b H y ∧ rowIndex b H y < (H : Int)) ↔
      (b.bottom ≤ y ∧ y < b.top) := by
  have hlen : ((List.range (H + 1)).countP
      (fun i => decide (y < rowFence b H i))) ≤ H + 1 := by
    have := List.countP_le_length
      (p := fun i => decide (y < rowFence b H i)) (l := List.range (H + 1))
    simpa using this
  constructor
  · rintro ⟨h1, h2⟩
    unfold rowIndex at h1 h2
    have hcnt1 : 0 < (List.range (H + 1)).countP
        (fun i => decide (y < rowFence b H i)) := by omega
    have hcnt2 : ((List.range (H + 1)).countP
        (fun i => decide (y < rowFence b H i))) < H + 1 := by omega
    constructor
    · by_contra hy
      push_neg at hy
      have hall : ∀ i ∈ List.range (H + 1),
          decide (y < rowFence b H i) = true := by
        intro i hi
        have hiH : i ≤ H := by
          simp only [List.mem_range] at hi
          omega
        have : b.bottom ≤ rowFence b H i := by
          rw [← rowFence_last b hH]
          exact rowFence_anti b H hbt hiH
        simp only [decide_eq_true_eq]
        linarith
      have heq := List.countP_eq_length.mpr hall
      rw [List.length_range] at heq
      omega
    · obtain ⟨i, hi, hip⟩ := List.countP_pos_iff.mp hcnt1
      have hiy : y < rowFence b H i := of_decide_eq_true hip
      have hle : rowFence b H i ≤ b.top := by
        rw [← rowFence_zero b H]
        exact rowFence_anti b H hbt (Nat.zero_le i)
      linarith
  · rintro ⟨h1, h2⟩
    have hcnt1 : 0 < (List.range (H + 1)).countP
        (fun i => decide (y < rowFence b H i)) := by
      refine List.countP_pos_iff.mpr ⟨0, by simp, ?_⟩
      simp only [decide_eq_true_eq, rowFence_zero]
      exact h2
    have hcnt2 : ((List.range (H + 1)).countP
        (fun i => decide (y < rowFence b H i))) < H + 1 := by
      rcases Nat.lt_or_ge ((List.range (H + 1)).countP
        (fun i => decide (y < rowFence b H i))) (H + 1) with h | h
      · exact h
      · exfalso
        have heq : ((List.range (H + 1)).countP
            (fun i => decide (y < rowFence b H i))) = H + 1 := by omega
        have hallp := List.countP_eq_length.mp
          (by rw [List.length_range]; exact heq)
        have hHp := hallp H (by simp)
        have : y < rowFence b H H := of_decide_eq_true hHp
        rw [rowFence_last b hH] at this
        linarith
    unfold rowIndex
    omega

theorem inGrid_eq_inKeptRegion (b : Bounds) {H W : Nat}
    (hlr : b.left < b.right) (hbt : b.bottom < b.top)
    (hH : 0 < H) (hW : 0 < W) (p : Pt) :
    inGrid H W (p, rowIndex b H p.y, colIndex b W p.x) = inKeptRegion b p := by
  have hc := colIndex_mem_iff b p.x hlr hW
  have hr := rowIndex_mem_iff b p.y hbt hH
  rw [Bool.eq_iff_iff]
  unfold inGrid inKeptRegion
  simp only [Bool.and_eq_true, decide_eq_true_eq]
  constructor
  · rintro ⟨⟨⟨h1, h2⟩, h3⟩, h4⟩
    obtain ⟨hx1, hx2⟩ := hc.mp ⟨h3, h4⟩
    obtain ⟨hy1, hy2⟩ := hr.mp ⟨h1, h2⟩
    exact ⟨⟨⟨hx1, hx2⟩, hy1⟩, hy2⟩
  · rintro ⟨⟨⟨hx1, hx2⟩, hy1⟩, hy2⟩
    obtain ⟨h3, h4⟩ := hc.mpr ⟨hx1, hx2⟩
    obtain ⟨h1, h2⟩ := hr.mpr ⟨hy1, hy2⟩
    exact ⟨⟨⟨h1, h2⟩, h3⟩, h4⟩

theorem sum_indicator_cell {H W : Nat} {a c : Int}
    (h1 : 0 ≤ a) (h2 : a < (H : Int)) (h3 : 0 ≤ c) (h4 : c < (W : Int)) :
    (∑ r ∈ Finset.range H, ∑ cc ∈ Finset.range W,
      (if a = (r : Int) ∧ c = (cc : Int) then 1 else 0)) = 1 := by
  have hcond : ∀ r cc : Nat,
      (a = (r : Int) ∧ c = (cc : Int)) ↔ (cc = c.toNat ∧ r = a.toNat) := by
    intro r cc
    omega
  have hstep : ∀ r ∈ Finset.range H,
      (∑ cc ∈ Finset.range W,
        (if a = (r : Int) ∧ c = (cc : Int) then 1 else 0)) =
        (if r = a.toNat then 1 else 0) := by
    intro r _
    have : ∀ cc ∈ Finset.range W,
        (if a = (r : Int) ∧ c = (cc : Int) then 1 else 0) =
          (if cc = c.toNat then (if r = a.toNat then 1 else 0) else 0) := by
      intro cc _
      rw [if_congr (hcond r cc) rfl rfl, ite_and]
    rw [Finset.sum_congr rfl this, Finset.sum_ite_eq' (Finset.range W) c.toNat
      (fun _ => if r = a.toNat then 1 else 0)]
    rw [if_pos (Finset.mem_range.mpr (by omega))]
  rw [Finset.sum_congr rfl hstep,
    Finset.sum_ite_eq' (Finset.range H) a.toNat (fun _ => 1)]
  rw [if_pos (Finset.mem_range.mpr (by omega))]

theorem sum_countP_cells {H W : Nat} {L : List (Pt × Int × Int)}
    (hin : ∀ q ∈ L, inGrid H W q = true) :
    (∑ r ∈ Finset.range H, ∑ c ∈ Finset.range W,
      L.countP (fun q => decide (q.2.1 = (r : Int)) &&
        decide (q.2.2 = (c : Int)))) = L.length := by
  induction L with
  | nil => simp
  | cons q L ih =>
    have hq := hin q (by simp)
    have hL : ∀ q2 ∈ L, inGrid H W q2 = true :=
      fun q2 hq2 => hin q2 (by simp [hq2])
    simp only [List.countP_cons, List.length_cons]
    rw [show (∑ r ∈ Finset.range H, ∑ c ∈ Finset.range W,
        (L.countP (fun q2 => decide (q2.2.1 = (r : Int)) &&
          decide (q2.2.2 = (c : Int))) +
         (if (decide (q.2.1 = (r : Int)) &&
              decide (q.2.2 = (c : Int))) = true then 1 else 0))) =
      (∑ r ∈ Finset.range H, ∑ c ∈ Finset.range W,
        L.countP (fun q2 => decide (q2.2.1 = (r : Int)) &&
          decide (q2.2.2 = (c : Int)))) +
      (∑ r ∈ Finset.range H, ∑ c ∈ Finset.range W,
        (if (decide (q.2.1 = (r : Int)) &&
             decide (q.2.2 = (c : Int))) = true then 1 else 0)) from by
      rw [← Finset.sum_add_distrib]
      refine Finset.sum_congr rfl fun r _ => ?_
      rw [← Finset.sum_add_distrib]]
    rw [ih hL]
    unfold inGrid at hq
    simp only [Bool.and_eq_true, decide_eq_true_eq] at hq
    obtain ⟨⟨⟨h1, h2⟩, h3⟩, h4⟩ := hq
    have hind := sum_indicator_cell h1 h2 h3 h4
    have hconv : ∀ r ∈ Finset.range H, ∀ c ∈ Finset.range W,
        (if (decide (q.2.1 = (r : Int)) &&
             decide (q.2.2 = (c : Int))) = true then 1 else 0) =
          (if q.2.1 = (r : Int) ∧ q.2.2 = (c : Int) then 1 else 0) := by
      intro r _ c _
      simp
    rw [Finset.sum_congr rfl fun r hr =>
      Finset.sum_congr rfl fun c hc => hconv r hr c hc]
    rw [sum_indicator_cell h1 h2 h3 h4]

theorem grid_length_eq_countP (b : Bounds) {H W : Nat} (pts : List Pt)
    (hlr : b.left < b.right) (hbt : b.bottom < b.top)
    (hH : 0 < H) (hW : 0 < W) :
    (grid_by_centroid b H W pts).length = pts.countP (inKeptRegion b) := by
  unfold grid_by_centroid
  rw [← List.countP_eq_length_filter, List.countP_map]
  refine List.countP_congr fun p _ => ?_
  simp only [Function.comp_apply]
  rw [inGrid_eq_inKeptRegion b hlr hbt hH hW p]

/-- C2 counterexample: with the unit bounding box and a 1 by 1 grid, a single
polygon whose centroid (0, 1/2) lies on the left edge — inside the closed
bounding box — contributes nothing to the count band, so the band total 0
differs from the number of centroids within the bounding box. -/
theorem claim_C2_counterexample :
    ¬ (countBandSum ⟨0, 1, 0, 1⟩ 1 1 [⟨0, 1/2⟩] =
        ([⟨0, 1/2⟩] : List Pt).countP (inClosedBBox ⟨0, 1, 0, 1⟩)) := by
  have hL : countBandSum ⟨0, 1, 0, 1⟩ 1 1 [⟨0, 1/2⟩] = 0 := by
    norm_num [countBandSum, countCellValue, grid_by_centroid, inGrid,
      rowIndex, colIndex, rowFence, colFence, List.range_succ,
      Finset.sum_range_succ]
  have hR : ([⟨0, 1/2⟩] : List Pt).countP (inClosedBBox ⟨0, 1, 0, 1⟩) = 1 := by
    norm_num [inClosedBBox]
  rw [hL, hR]
  omega

/-- C2 (amended): for a valid bounding box and grid shape, the sum of the
`centroids_per_pixel` / sum band over the whole grid equals the number of
input polygons whose centroid (x, y) satisfies left < x ≤ right and
bottom ≤ y < top — the half-open region the binning keeps, rather than the
closed bounding box. -/
theorem claim_C2_count_conservation (b : Bounds) (H W : Nat) (pts : List Pt)
    (_hne : pts ≠ []) (hlr : b.left < b.right) (hbt : b.bottom < b.top)
    (hH : 0 < H) (hW : 0 < W) :
    countBandSum b H W pts = pts.countP (inKeptRegion b) := by
  have hin : ∀ q ∈ grid_by_centroid b H W pts, inGrid H W q = true := by
    intro q hq
    unfold grid_by_centroid at hq
    exact List.of_mem_filter hq
  unfold countBandSum countCellValue
  rw [sum_countP_cells hin, grid_length_eq_countP b pts hlr hbt hH hW]

/-- Witness for C2: a 2 by 2 grid over the box [0,2] by [0,2] with two
interior centroids and one centroid outside; the band total is 2. -/
theorem claim_C2_witness :
    countBandSum ⟨0, 2, 0, 2⟩ 2 2 [⟨1, 1⟩, ⟨1/2, 3/2⟩, ⟨3, 1⟩] =
      ([⟨1, 1⟩, ⟨1/2, 3/2⟩, ⟨3, 1⟩] : List Pt).countP
        (inKeptRegion ⟨0, 2, 0, 2⟩) := by
  exact claim_C2_count_conservation ⟨0, 2, 0, 2⟩ 2 2
    [⟨1, 1⟩, ⟨1/2, 3/2⟩, ⟨3, 1⟩] (by simp) (by norm_num) (by norm_num)
    (by norm_num) (by norm_num)

/-- C10: a polygon whose centroid lies strictly outside the supplied
bounding box is assigned to no grid cell and contributes nothing to any
count band value: adding it to the input leaves the binned polygon list and
every cell value unchanged. -/
theorem claim_C10_outside_centroid_dropped (b : Bounds) (H W : Nat)
    (p : Pt) (pts : List Pt)
    (hlr : b.left < b.right) (hbt : b.bottom < b.top)
    (hH : 0 < H) (hW : 0 < W)
    (hout : p.x < b.left ∨ b.right < p.x ∨ p.y < b.bottom ∨ b.top < p.y) :
    grid_by_centroid b H W (p :: pts) = grid_by_centroid b H W pts ∧
    ∀ r c, countCellValue b H W (p :: pts) r c =
      countCellValue b H W pts r c := by
  have hkept : inKeptRegion b p = false := by
    rcases hout with h | h | h | h
    · have h1 : ¬ (b.left < p.x) := not_lt.mpr (le_of_lt h)
      simp [inKeptRegion, h1]
    · have h1 : ¬ (p.x ≤ b.right) := not_le.mpr h
      simp [inKeptRegion, h1]
    · have h1 : ¬ (b.bottom ≤ p.y) := not_le.mpr h
      simp [inKeptRegion, h1]
    · have h1 : ¬ (p.y < b.top) := not_lt.mpr (le_of_lt h)
      simp [inKeptRegion, h1]
  have hgrid : inGrid H W (p, rowIndex b H p.y, colIndex b W p.x) = false := by
    rw [inGrid_eq_inKeptRegion b hlr hbt hH hW p]
    exact hkept
  have hmain : grid_by_centroid b H W (p :: pts) =
      grid_by_centroid b H W pts := by
    unfold grid_by_centroid
    simp only [List.map_cons, List.filter_cons, hgrid]
    simp
  refine ⟨hmain, fun r c => ?_⟩
  unfold countCellValue
  rw [hmain]

/-- Witness for C10: a centroid left of the box is silently dropped and
every cell of a 2 by 2 grid reads the same with or without it. -/
theorem claim_C10_witness :
    grid_by_centroid ⟨0, 2, 0, 2⟩ 2 2 [⟨-1, 1⟩, ⟨1, 1⟩] =
      grid_by_centroid ⟨0, 2, 0, 2⟩ 2 2 [⟨1, 1⟩] ∧
    countCellValue ⟨0, 2, 0, 2⟩ 2 2 [⟨-1, 1⟩, ⟨1, 1⟩] 1 0 =
      countCellValue ⟨0, 2, 0, 2⟩ 2 2 [⟨1, 1⟩] 1 0 := by
  have h := claim_C10_outside_centroid_dropped ⟨0, 2, 0, 2⟩ 2 2 ⟨-1, 1⟩
    [⟨1, 1⟩] (by norm_num) (by norm_num) (by norm_num) (by norm_num)
    (Or.inl (by norm_num))
  exact ⟨h.1, h.2 1 0⟩

theorem lookup_append {α β : Type} [BEq α] (l1 l2 : List (α × β)) (k : α) :
    List.lookup k (l1 ++ l2) =
      match List.lookup k l1 with
      | some v => some v
      | none => List.lookup k l2 := by
  induction l1 with
  | nil => rfl
  | cons kv rest ih =>
    obtain ⟨k0, v0⟩ := kv
    simp only [List.cons_append, List.lookup]
    cases hk : (k == k0) <;> simp [hk, ih]

theorem lookup_count_part (cnt ar : Grouped) (k : Nat × Nat) :
    List.lookup k (fillna0 (cnt.map
      (fun kv => (kv.1, (some kv.2, List.lookup kv.1 ar))))) =
      match List.lookup k cnt with
      | some a => some (a, (List.lookup k ar).getD 0)
      | none => none := by
  induction cnt with
  | nil => rfl
  | cons kv rest ih =>
    obtain ⟨k0, v0⟩ := kv
    have hstep : fillna0 (((k0, v0) :: rest).map
        (fun kv => (kv.1, (some kv.2, List.lookup kv.1 ar)))) =
        (k0, (v0, (List.lookup k0 ar).getD 0)) ::
          fillna0 (rest.map
            (fun kv => (kv.1, (some kv.2, List.lookup kv.1 ar)))) := rfl
    rw [hstep]
    simp only [List.lookup]
    cases hk : (k == k0) with
    | true =>
      have hkk : k = k0 := by simpa using hk
      subst hkk
      rfl
    | false =>
      exact ih

theorem lookup_area_part (cnt ar : Grouped) (k : Nat × Nat)
    (hnone : List.lookup k cnt = none) :
    List.lookup k (fillna0 ((ar.filter
      (fun kv => (List.lookup kv.1 cnt).isNone)).map
        (fun kv => (kv.1, ((none : Option ℚ), some kv.2))))) =
      match List.lookup k ar with
      | some v => some (0, v)
      | none => none := by
  induction ar with
  | nil => rfl
  | cons kv rest ih =>
    obtain ⟨k0, v0⟩ := kv
    simp only [List.filter_cons]
    cases hm : (List.lookup k0 cnt).isNone with
    | true =>
      simp only [hm, if_true]
      have hstep : fillna0 (((k0, v0) :: rest.filter
          (fun kv => (List.lookup kv.1 cnt).isNone)).map
            (fun kv => (kv.1, ((none : Option ℚ), some kv.2)))) =
          (k0, (0, v0)) ::
            fillna0 ((rest.filter
              (fun kv => (List.lookup kv.1 cnt).isNone)).map
                (fun kv => (kv.1, ((none : Option ℚ), some kv.2)))) := rfl
      rw [hstep]
      simp only [List.lookup]
      cases hk : (k == k0) with
      | true =>
        have hkk : k = k0 := by simpa using hk
        subst hkk
        rfl
      | false =>
        exact ih
    | false =>
      simp only [hm, Bool.false_eq_true, if_false]
      have hk : (k == k0) = false := by
        cases hkk : (k == k0) with
        | false => rfl
        | true =>
          exfalso
          have hkk2 : k = k0 := by simpa using hkk
          rw [← hkk2, hnone] at hm
          simp at hm
      rw [ih]
      simp only [List.lookup, hk]

theorem lookup_mergedStats (cnt ar : Grouped) (k : Nat × Nat) :
    List.lookup k (mergedStats cnt ar) =
      match List.lookup k cnt, List.lookup k ar with
      | some a, rb => some (a, rb.getD 0)
      | none, some v => some (0, v)
      | none, none => none := by
  unfold mergedStats outerMerge fillna0
  rw [List.map_append, lookup_append]
  have h1 := lookup_count_part cnt ar k
  unfold fillna0 at h1
  rw [h1]
  cases hc : List.lookup k cnt with
  | some a => rfl
  | none =>
    have h2 := lookup_area_part cnt ar k hc
    unfold fillna0 at h2
    rw [h2]
    cases List.lookup k ar <;> rfl

/-- C3: in `__calculate_stats` with both a count-weighted and an
area-weighted statistic, the grouped results are merged on (row, col) with an
outer join and NA values are replaced by 0: a cell present only in the area
result reads 0 in the count band (and vice versa), and a cell absent from
both reads 0 in both output bands — a number, never a no-data marker. -/
theorem claim_C3_outer_join_zero_fill (cnt ar : Grouped) (k : Nat × Nat) :
    (∀ a, List.lookup k cnt = some a → List.lookup k ar = none →
      asArray (mergedStats cnt ar) Prod.snd k = 0 ∧
      asArray (mergedStats cnt ar) Prod.fst k = a) ∧
    (∀ v, List.lookup k cnt = none → List.lookup k ar = some v →
      asArray (mergedStats cnt ar) Prod.fst k = 0 ∧
      asArray (mergedStats cnt ar) Prod.snd k = v) ∧
    (List.lookup k cnt = none → List.lookup k ar = none →
      asArray (mergedStats cnt ar) Prod.fst k = 0 ∧
      asArray (mergedStats cnt ar) Prod.snd k = 0) := by
  have hm := lookup_mergedStats cnt ar k
  refine ⟨?_, ?_, ?_⟩
  · intro a hc ha
    rw [hc, ha] at hm
    unfold asArray
    rw [hm]
    exact ⟨rfl, rfl⟩
  · intro v hc ha
    rw [hc, ha] at hm
    unfold asArray
    rw [hm]
    exact ⟨rfl, rfl⟩
  · intro hc ha
    rw [hc, ha] at hm
    unfold asArray
    rw [hm]
    exact ⟨rfl, rfl⟩

/-- Witness for C3: cell (0,0) appears only in the count result, cell (0,1)
only in the area result; each reads its own value in its own band and 0 in
the other band, and cell (1,1), absent from both, reads 0 in both. -/
theorem claim_C3_witness :
    (asArray (mergedStats [((0, 0), 2)] [((0, 1), 5)]) Prod.snd (0, 0) = 0 ∧
     asArray (mergedStats [((0, 0), 2)] [((0, 1), 5)]) Prod.fst (0, 0) = 2) ∧
    (asArray (mergedStats [((0, 0), 2)] [((0, 1), 5)]) Prod.fst (0, 1) = 0 ∧
     asArray (mergedStats [((0, 0), 2)] [((0, 1), 5)]) Prod.snd (0, 1) = 5) ∧
    (asArray (mergedStats [((0, 0), 2)] [((0, 1), 5)]) Prod.fst (1, 1) = 0 ∧
     asArray (mergedStats [((0, 0), 2)] [((0, 1), 5)]) Prod.snd (1, 1) = 0) := by
  obtain ⟨h1, _, _⟩ := claim_C3_outer_join_zero_fill
    [((0, 0), 2)] [((0, 1), 5)] (0, 0)
  obtain ⟨_, h2, _⟩ := claim_C3_outer_join_zero_fill
    [((0, 0), 2)] [((0, 1), 5)] (0, 1)
  obtain ⟨_, _, h3⟩ := claim_C3_outer_join_zero_fill
    [((0, 0), 2)] [((0, 1), 5)] (1, 1)
  exact ⟨h1 2 rfl rfl, h2 5 rfl rfl, h3 rfl rfl⟩

/-- C6: the dtype actually produced for integer-valued bands.  Pandas
aggregation of integer data yields int64 columns, so the concatenated array
has dtype int64; `np.min_scalar_type` of a non-scalar array returns that
dtype unmodified, and the code then swaps int64 for int32.  For bands whose
values are all 0 or 1 the narrowest holding type is uint8, so the produced
dtype is not the narrowest type able to hold every computed value. -/
theorem claim_C6_dtype_not_narrowest :
    chooseDtype Dtype.int64 = Dtype.int32 ∧
    narrowestIntDtype [0, 1] = Dtype.uint8 ∧
    chooseDtype Dtype.int64 ≠ narrowestIntDtype [0, 1] := by
  refine ⟨rfl, by decide, by decide⟩

/-- C8: whenever the successfully opened input rasters do not all share one
CRS or do not all have one band count, `from_rasters` fails with the
corresponding MergeError — for every merge function, so no merged raster is
ever produced. -/
theorem claim_C8_mismatch_fails {M : Type} (merge : List RasterMeta → M)
    (rs : List RasterMeta)
    (hmis : (∃ x ∈ rs, ∃ y ∈ rs, x.crs ≠ y.crs) ∨
            (∃ x ∈ rs, ∃ y ∈ rs, x.count ≠ y.count)) :
    from_rasters merge rs = .error MergeError.crsMismatch ∨
    from_rasters merge rs = .error MergeError.bandCountMismatch := by
  cases rs with
  | nil =>
    exfalso
    rcases hmis with ⟨x, hx, _⟩ | ⟨x, hx, _⟩ <;> simp at hx
  | cons ref rest =>
    unfold from_rasters get_and_check_rasters
    cases hcrs : ((ref :: rest).all (fun x => x.crs == ref.crs)) with
    | false =>
      left
      simp only [hcrs]
      rfl
    | true =>
      have hallcrs : ∀ x ∈ ref :: rest, x.crs = ref.crs := by
        intro x hx
        have := List.all_eq_true.mp hcrs x hx
        simpa using this
      have hcnt : ((ref :: rest).all (fun x => x.count == ref.count)) =
          false := by
        rcases hmis with ⟨x, hx, y, hy, hne⟩ | ⟨x, hx, y, hy, hne⟩
        · exact absurd ((hallcrs x hx).trans (hallcrs y hy).symm) hne
        · cases hall : ((ref :: rest).all (fun x => x.count == ref.count))
            with
          | false => rfl
          | true =>
            exfalso
            have hx' := List.all_eq_true.mp hall x hx
            have hy' := List.all_eq_true.mp hall y hy
            simp only [beq_iff_eq] at hx' hy'
            exact hne (hx'.trans hy'.symm)
      right
      simp only [hcrs, hcnt]
      rfl

/-- Witness for C8: two one-band rasters with different CRS identifiers make
`from_rasters` fail, whatever the merge function would have computed. -/
theorem claim_C8_witness :
    from_rasters (fun _ => ()) [⟨0, 1⟩, ⟨1, 1⟩] =
        .error MergeError.crsMismatch ∨
    from_rasters (fun _ => ()) [⟨0, 1⟩, ⟨1, 1⟩] =
        .error MergeError.bandCountMismatch := by
  refine claim_C8_mismatch_fails (fun _ => ()) [⟨0, 1⟩, ⟨1, 1⟩] ?_
  left
  refine ⟨⟨0, 1⟩, by simp, ⟨1, 1⟩, by simp, by decide⟩

end Raster

namespace WebImage

/-- C4: `to_image` with `min_val = max_val` does divide by zero.  The scale
`255 / (max_val - min_val)` is computed unconditionally; with float64
operands the division by zero yields inf, the rescaled value of every
finite non-nodata cell is `0 * inf = NaN`, and the conversion to an index
crashes — the cell does not receive the color at palette index 0, and no
image is produced. (With plain Python numbers the same line raises
ZeroDivisionError.) -/
theorem claim_C4_min_eq_max_crashes :
    cellIndex 0 0 none (Val.fin 0) = none ∧
    to_image [(102, 51, 153, 255), (255, 204, 0, 255)] 0 0 none
      [[Val.fin 0]] = none := by
  have h1 : cellIndex (0 : ℚ) 0 none (Val.fin 0) = none := by
    unfold cellIndex noDataMask clampVal scaleTimes
    norm_num [ieeeLt]
  refine ⟨h1, ?_⟩
  unfold to_image
  simp [List.mapM, List.mapM.loop, cellColor, h1]

/-- C5 counterexample: a NaN cell with no `nodata_value` provided is not
caught by the no-data mask (NaN compares unequal to everything), so it does
not map to palette index 256 — the index computation is undefined and the
rendering crashes instead. -/
theorem claim_C5_counterexample :
    ¬ (cellIndex 0 1 none Val.nan = some 256) := by
  unfold cellIndex noDataMask
  simp

/-- C5 (amended): for min_val < max_val, a cell equal to `nodata_value` maps
to index 256 and receives the palette entry at 256; every other non-NaN cell
(finite or infinite — infinities are clamped to the range endpoints, not
treated as no-data) maps to an index in 0..255 obtained by clamping into
[min_val, max_val], linear rescaling and truncation; a NaN cell that is not
the nodata value crashes the rendering (the claim is false for it). -/
theorem claim_C5_color_mapping (minq maxq : ℚ) (nodata : Option Val)
    (v : Val) (pal : List (Int × Int × Int × Int))
    (hlt : minq < maxq) (hnan : v ≠ Val.nan) :
    (noDataMask nodata v = true →
      cellIndex minq maxq nodata v = some 256 ∧
      cellColor pal minq maxq nodata v = pal[(256 : Nat)]?) ∧
    (noDataMask nodata v = false →
      ∃ i : Int, cellIndex minq maxq nodata v = some i ∧
        0 ≤ i ∧ i ≤ 255 ∧
        cellColor pal minq maxq nodata v = pal[i.toNat]? ∧
        ∃ vc : ℚ, clampVal (.fin minq) (.fin maxq) v = .fin vc ∧
          minq ≤ vc ∧ vc ≤ maxq ∧
          i = truncToInt ((vc - minq) * (255 / (maxq - minq)))) := by
  constructor
  · intro hmask
    have h1 : cellIndex minq maxq nodata v = some 256 := by
      simp [cellIndex, hmask]
    refine ⟨h1, ?_⟩
    unfold cellColor
    rw [h1]
    show pythonGet pal 256 = pal[(256 : Nat)]?
    simp [pythonGet]
  · intro hmask
    obtain ⟨vc, hvc, hlo, hhi⟩ : ∃ vc,
        clampVal (.fin minq) (.fin maxq) v = .fin vc ∧
          minq ≤ vc ∧ vc ≤ maxq := by
      cases v with
      | nan => exact absurd rfl hnan
      | pinf =>
        refine ⟨maxq, ?_, le_of_lt hlt, le_refl _⟩
        unfold clampVal ieeeLt
        simp
      | ninf =>
        refine ⟨minq, ?_, le_refl _, le_of_lt hlt⟩
        unfold clampVal ieeeLt
        simp [not_lt.mpr (le_of_lt hlt)]
      | fin q =>
        by_cases h1 : q < minq
        · refine ⟨minq, ?_, le_refl _, le_of_lt hlt⟩
          unfold clampVal ieeeLt
          simp [h1, not_lt.mpr (le_of_lt hlt)]
        · by_cases h2 : maxq < q
          · refine ⟨maxq, ?_, le_of_lt hlt, le_refl _⟩
            unfold clampVal ieeeLt
            simp [h1, h2]
          · refine ⟨q, ?_, not_lt.mp h1, not_lt.mp h2⟩
            unfold clampVal ieeeLt
            simp [h1, h2]
    have hpos : 0 < maxq - minq := by linarith
    have hsnonneg : 0 ≤ (vc - minq) * (255 / (maxq - minq)) := by
      apply mul_nonneg
      · linarith
      · apply div_nonneg
        · norm_num
        · linarith
    have hs255 : (vc - minq) * (255 / (maxq - minq)) ≤ 255 := by
      have h255 : (maxq - minq) * (255 / (maxq - minq)) = 255 := by
        field_simp
      calc (vc - minq) * (255 / (maxq - minq))
          ≤ (maxq - minq) * (255 / (maxq - minq)) := by
            apply mul_le_mul_of_nonneg_right (by linarith)
            apply div_nonneg
            · norm_num
            · linarith
        _ = 255 := h255
    have hge0 : 0 ≤ truncToInt ((vc - minq) * (255 / (maxq - minq))) := by
      unfold truncToInt
      rw [if_pos hsnonneg]
      exact Int.floor_nonneg.mpr hsnonneg
    have hle255 : truncToInt ((vc - minq) * (255 / (maxq - minq))) ≤ 255 := by
      unfold truncToInt
      rw [if_pos hsnonneg]
      have h1 : (⌊(vc - minq) * (255 / (maxq - minq))⌋ : ℚ) ≤ 255 :=
        le_trans (Int.floor_le _) hs255
      exact_mod_cast h1
    have hcore : (match scaleTimes minq maxq vc with
        | Val.fin s => some (truncToInt s)
        | _ => none) =
        some (truncToInt ((vc - minq) * (255 / (maxq - minq)))) := by
      unfold scaleTimes
      rw [if_neg (ne_of_gt hlt)]
    have hidx : cellIndex minq maxq nodata v =
        some (truncToInt ((vc - minq) * (255 / (maxq - minq)))) := by
      unfold cellIndex
      rw [hmask]
      simp only [Bool.false_eq_true, if_false]
      cases v with
      | nan => exact absurd rfl hnan
      | fin q =>
        rw [hvc]
        exact hcore
      | pinf =>
        rw [hvc]
        exact hcore
      | ninf =>
        rw [hvc]
        exact hcore
    refine ⟨truncToInt ((vc - minq) * (255 / (maxq - minq))), hidx,
      hge0, hle255, ?_, vc, hvc, hlo, hhi, rfl⟩
    unfold cellColor
    rw [hidx]
    show pythonGet pal (truncToInt ((vc - minq) * (255 / (maxq - minq)))) = _
    unfold pythonGet
    simp only [hge0, if_pos]

/-- Witness for C5: with range [0, 2] and nodata value 5, the cell holding 5
is marked no-data and maps to palette index 256. -/
theorem claim_C5_witness :
    cellIndex 0 2 (some (Val.fin 5)) (Val.fin 5) = some 256 :=
  ((claim_C5_color_mapping 0 2 (some (Val.fin 5)) (Val.fin 5) []
      (by norm_num) (by simp)).1 (by simp [noDataMask, ieeeEq])).1

end WebImage

namespace Palette

theorem truncToInt_mem_range {q : ℚ} (h0 : 0 ≤ q) (h255 : q ≤ 255) :
    0 ≤ truncToInt q ∧ truncToInt q ≤ 255 := by
  unfold truncToInt
  rw [if_pos h0]
  constructor
  · exact Int.floor_nonneg.mpr h0
  · have h1 : (⌊q⌋ : ℚ) ≤ 255 := le_trans (Int.floor_le q) h255
    exact_mod_cast h1

theorem rgba_channels_bounded {c : SColor} (h : inGamut c) :
    (coloraide_to_rgba c).length = 4 ∧
    ∀ ch ∈ coloraide_to_rgba c, 0 ≤ ch ∧ ch ≤ 255 := by
  obtain ⟨h1, h2, h3, h4, h5, h6, h7, h8⟩ := h
  refine ⟨rfl, ?_⟩
  intro ch hch
  unfold coloraide_to_rgba at hch
  simp only [List.mem_cons, List.not_mem_nil, or_false] at hch
  rcases hch with h | h | h | h
  · subst h
    exact truncToInt_mem_range h1 h2
  · subst h
    exact truncToInt_mem_range h3 h4
  · subst h
    exact truncToInt_mem_range h5 h6
  · subst h
    refine truncToInt_mem_range (by positivity) ?_
    nlinarith

/-- C9: for every palette whose interpolation and nodata color print to
in-gamut sRGB (coloraide gamut-maps on output), the derived lookup table has
exactly 257 entries; entries 0..255 are the interpolated gradient colors at
x/256, entry 256 is the no-data color, and every entry is an RGBA quadruple
of integers in 0..255. -/
theorem claim_C9_palette_lookup_table (interp : ℚ → SColor)
    (nodataC : SColor)
    (hinterp : ∀ q, 0 ≤ q → q ≤ 1 → inGamut (interp q))
    (hnodata : inGamut nodataC) :
    (get_rgba_list interp nodataC).length = 257 ∧
    (∀ i : Nat, i < 256 →
      (get_rgba_list interp nodataC)[i]? =
        some (get_color interp nodataC (some ((i : ℚ) / 256)))) ∧
    (get_rgba_list interp nodataC)[(256 : Nat)]? =
      some (coloraide_to_rgba nodataC) ∧
    (∀ entry ∈ get_rgba_list interp nodataC, entry.length = 4 ∧
      ∀ ch ∈ entry, 0 ≤ ch ∧ ch ≤ 255) := by
  refine ⟨by simp [get_rgba_list], ?_, ?_, ?_⟩
  · intro i hi
    unfold get_rgba_list
    rw [List.getElem?_append, if_pos (by simp [hi])]
    rw [List.getElem?_map]
    simp [hi]
  · unfold get_rgba_list
    rw [List.getElem?_append, if_neg (by simp)]
    simp [get_color]
  · intro entry hmem
    unfold get_rgba_list at hmem
    rcases List.mem_append.mp hmem with h | h
    · obtain ⟨x, hx, hentry⟩ := List.mem_map.mp h
      subst hentry
      unfold get_color
      refine rgba_channels_bounded (hinterp _ ?_ ?_)
      · exact le_max_left _ _
      · exact max_le (by norm_num) (min_le_right _ _)
    · have hentry : entry = get_color interp nodataC none := by
        simpa using h
      subst hentry
      unfold get_color
      exact rgba_channels_bounded hnodata

/-- Witness for C9: a constant interpolation with an in-gamut color and a
transparent white nodata color give a 257-entry table whose last entry is
the nodata RGBA. -/
theorem claim_C9_witness :
    (get_rgba_list (fun _ => ⟨0, 128, 255, 1⟩) ⟨255, 255, 255, 0⟩).length =
        257 ∧
    (get_rgba_list (fun _ => ⟨0, 128, 255, 1⟩)
        ⟨255, 255, 255, 0⟩)[(256 : Nat)]? =
      some (coloraide_to_rgba ⟨255, 255, 255, 0⟩) := by
  obtain ⟨hlen, _, h256, _⟩ := claim_C9_palette_lookup_table
    (fun _ => ⟨0, 128, 255, 1⟩) ⟨255, 255, 255, 0⟩
    (fun q h1 h2 => by norm_num [inGamut]) (by norm_num [inGamut])
  exact ⟨hlen, h256⟩

end Palette

end VizRaster
